import Mathlib

/-!
# snc: tunnel codec, prompt parser, proxy allocator and command templates

A shallow embedding of the Go program `snc` (files `crypto.go`, `utils.go`,
`forward.go`, `rsync.go`, `sncd.go`) together with theorems about it.

Conventions of the embedding

* A Go `byte` is a natural number; every place where the Go code truncates to
  `uint8` carries an explicit `% 256`.
* A Go `string` and a Go `[]byte` are both lists of bytes (`GoString`).
* A Go `error` is a value of `Error`; the `nil` error is `none`.
* An `io.Reader` / `io.Writer` is a state together with a `Read` / `Write`
  function returning the new state next to the Go results.
* Loops that run until the environment reports something (`for { r.Read … }`)
  take a fuel argument and return `none` when the fuel runs out.
-/

namespace Snc

/-! ## Bytes, strings, errors -/

/-- A Go `byte`. -/
abbrev Byte := Nat

/-- A Go `string` or `[]byte`: a sequence of bytes. -/
abbrev GoString := List Byte

/-- The bytes (UTF-8) of a string literal of the source. -/
def str (s : String) : GoString :=
  (s.data.flatMap String.utf8EncodeChar).map UInt8.toNat

/-- Go `error` values: `io.EOF`, or any other error, identified by its message. -/
inductive Error where
  | EOF : Error
  | msg : GoString → Error
  deriving DecidableEq

/-- The Go call `errors.New(text)`. -/
def errorsNew (text : GoString) : Error := Error.msg text

/-- A zero-initialised Go array `[n]byte` after `copy(a[:], src)`. -/
def copyInto (n : Nat) (src : List Byte) : List Byte :=
  src.take n ++ List.replicate (n - src.length) 0

/-! ## `crypto/rc4` (Go standard library), as used by `crypto.go` -/

/-- The Go type `rc4.Cipher`: the permutation `s` and the two indices. -/
structure Cipher where
  s : List Nat
  i : Nat
  j : Nat
  deriving DecidableEq

/-- Key-scheduling loop of `rc4.NewCipher`, from index `i` on, for `n` more rounds:
`j += uint8(c.s[i]) + key[i%k]; c.s[i], c.s[j] = c.s[j], c.s[i]`. -/
def ksa (key : List Byte) : Nat → Nat → Nat → List Nat → List Nat
  | 0, _, _, s => s
  | n + 1, i, j, s =>
    let j1 := (j + (s.getD i 0 % 256 + key.getD (i % key.length) 0) % 256) % 256
    let si := s.getD i 0
    let sj := s.getD j1 0
    ksa key n (i + 1) j1 ((s.set i sj).set j1 si)

/-- The Go function `rc4.NewCipher`: fails on a key of length 0 or above 256. -/
def NewCipher (key : List Byte) : Option Cipher :=
  if key.length < 1 ∨ key.length > 256 then none
  else some { s := ksa key 256 0 0 (List.range 256), i := 0, j := 0 }

/-- The Go method `(*rc4.Cipher).XORKeyStream(dst, src)`: returns the advanced cipher
and the bytes written to `dst`. -/
def XORKeyStream : Cipher → List Byte → Cipher × List Byte
  | c, [] => (c, [])
  | c, v :: src =>
    let i := (c.i + 1) % 256
    let x := c.s.getD i 0
    let j := (c.j + x % 256) % 256
    let y := c.s.getD j 0
    let s := (c.s.set i y).set j x
    let k := s.getD ((x + y) % 256) 0 % 256
    let r := XORKeyStream { s := s, i := i, j := j } src
    (r.1, (v ^^^ k) :: r.2)

/-! ## `crypto.go` -/

/-- The source of key material: `rand.NewChaCha8(seed)` followed by `Read` into a buffer.
The generator belongs to Go's `math/rand/v2`; it enters the development as a parameter,
a function from the 32-byte seed to the bytes that `Read` delivers. -/
abbrev ChaCha8 := List Byte → List Byte

/-- The cipher a nil `*rc4.Cipher` stands for; `newRC4` never produces it
(see `newRC4_key_ok`). -/
def nilCipher : Cipher := { s := [], i := 0, j := 0 }

/-- The function `newRC4` of `crypto.go`. -/
def newRC4 (cc8 : ChaCha8) (port : GoString) : Cipher :=
  let seed := copyInto 32 port
  let key := copyInto 256 (cc8 seed)
  (NewCipher key).getD nilCipher

/-! ## Connections, readers and writers -/

/-- One end of a connection (a `net.Conn`, or the pipes of a shell session).
`incoming` lists the pieces in which the bytes still to be read will be delivered,
`final` is what `Read` reports once they are used up (`io.EOF` after an orderly close),
and `sent` holds the bytes written so far. -/
structure Conn where
  incoming : List (List Byte)
  final : Error
  sent : List Byte
  deriving DecidableEq

/-- An `io.Reader`: `Read r n` is the call `r.Read(p)` with `len(p) = n`; it returns the
new state, the bytes `p[:n]` that were read, and the error. -/
class Reader (ρ : Type) where
  Read : ρ → Nat → ρ × List Byte × Option Error

/-- An `io.Writer`: `Write w p` returns the new state, the count and the error. -/
class Writer (ω : Type) where
  Write : ω → List Byte → ω × Nat × Option Error

/-- Reading from a connection: the next piece, or as much of it as the buffer holds; the
final error when nothing is left. -/
def Conn.Read (c : Conn) (n : Nat) : Conn × List Byte × Option Error :=
  match c.incoming with
  | [] => (c, [], some c.final)
  | seg :: rest =>
    if seg.length ≤ n then ({ c with incoming := rest }, seg, none)
    else ({ c with incoming := seg.drop n :: rest }, seg.take n, none)

/-- Writing to a connection: all of `p` is sent. -/
def Conn.Write (c : Conn) (p : List Byte) : Conn × Nat × Option Error :=
  ({ c with sent := c.sent ++ p }, p.length, none)

instance : Reader Conn := ⟨Conn.Read⟩

instance : Writer Conn := ⟨Conn.Write⟩

/-- The type `rc4Reader` of `crypto.go`. -/
structure rc4Reader (ρ : Type) where
  r : ρ
  c : Cipher

/-- The function `NewRC4Reader` of `crypto.go`. -/
def NewRC4Reader {ρ : Type} (cc8 : ChaCha8) (r : ρ) (port : GoString) : rc4Reader ρ :=
  { r := r, c := newRC4 cc8 port }

/-- The method `(*rc4Reader).Read` of `crypto.go`. -/
def rc4Reader.Read {ρ : Type} [Reader ρ] (rr : rc4Reader ρ) (n : Nat) :
    rc4Reader ρ × List Byte × Option Error :=
  let res := Reader.Read rr.r n
  if res.2.1.length > 0 then
    let x := XORKeyStream rr.c res.2.1
    ({ r := res.1, c := x.1 }, x.2, res.2.2)
  else
    ({ rr with r := res.1 }, res.2.1, res.2.2)

/-- The type `rc4Writer` of `crypto.go`. -/
structure rc4Writer (ω : Type) where
  w : ω
  c : Cipher

/-- The function `NewRC4Writer` of `crypto.go`. -/
def NewRC4Writer {ω : Type} (cc8 : ChaCha8) (w : ω) (port : GoString) : rc4Writer ω :=
  { w := w, c := newRC4 cc8 port }

/-- The method `(*rc4Writer).Write` of `crypto.go`. -/
def rc4Writer.Write {ω : Type} [Writer ω] (rw : rc4Writer ω) (p : List Byte) :
    rc4Writer ω × Nat × Option Error :=
  if p.length > 0 then
    let x := XORKeyStream rw.c p
    let res := Writer.Write rw.w x.2
    ({ w := res.1, c := x.1 }, res.2)
  else
    let res := Writer.Write rw.w p
    ({ rw with w := res.1 }, res.2)

instance {ρ : Type} [Reader ρ] : Reader (rc4Reader ρ) := ⟨rc4Reader.Read⟩

instance {ω : Type} [Writer ω] : Writer (rc4Writer ω) := ⟨rc4Writer.Write⟩

/-- Successive `Write` calls on an encoder, one for each element of `ps`. -/
def rc4Writer.writes {ω : Type} [Writer ω] (rw : rc4Writer ω) (ps : List (List Byte)) :
    rc4Writer ω :=
  ps.foldl (fun w p => (w.Write p).1) rw

/-- Successive `Read` calls on a decoder, with buffers of the sizes `ns`; the bytes the
calls yield are concatenated. -/
def rc4Reader.reads {ρ : Type} [Reader ρ] : rc4Reader ρ → List Nat → rc4Reader ρ × List Byte
  | rr, [] => (rr, [])
  | rr, n :: ns =>
    let res := rr.Read n
    let more := rc4Reader.reads res.1 ns
    (more.1, res.2.1 ++ more.2)

/-! ## `io.Copy` (Go standard library) -/

/-- The error `io.ErrShortWrite`. -/
def ErrShortWrite : Error := Error.msg (str "short write")

/-- The error `errInvalidWrite` of package `io`. -/
def errInvalidWrite : Error := Error.msg (str "invalid write result")

/-- The loop of `io.Copy(dst, src)` with its 32 KiB buffer; `written` is the running
count. Returns the two ends, the number of bytes written and the error. -/
def ioCopyLoop {ω ρ : Type} [Writer ω] [Reader ρ] :
    Nat → ω → ρ → Nat → Option (ω × ρ × Nat × Option Error)
  | 0, _, _, _ => none
  | fuel + 1, dst, src, written =>
    let rd := Reader.Read src (32 * 1024)
    let nr := rd.2.1.length
    let er := rd.2.2
    if nr > 0 then
      let wr := Writer.Write dst rd.2.1
      let nw := if nr < wr.2.1 then 0 else wr.2.1
      let ew := if nr < wr.2.1 ∧ wr.2.2 = none then some errInvalidWrite else wr.2.2
      if ew ≠ none then some (wr.1, rd.1, written + nw, ew)
      else if nr ≠ nw then some (wr.1, rd.1, written + nw, some ErrShortWrite)
      else if er ≠ none then
        some (wr.1, rd.1, written + nw, if er = some Error.EOF then none else er)
      else ioCopyLoop fuel wr.1 rd.1 (written + nw)
    else if er ≠ none then
      some (dst, rd.1, written, if er = some Error.EOF then none else er)
    else ioCopyLoop fuel dst rd.1 written

/-- The Go function `io.Copy(dst, src)`. -/
def ioCopy {ω ρ : Type} [Writer ω] [Reader ρ] (fuel : Nat) (dst : ω) (src : ρ) :
    Option (ω × ρ × Nat × Option Error) :=
  ioCopyLoop fuel dst src 0

/-! ## `utils.go` -/

/-- The loop of `DiscardUntil`: one-byte reads appended to `buf` until a byte of `bs`
has been read or a read fails. -/
def DiscardUntilLoop {ρ : Type} [Reader ρ] (bs : List Byte) :
    Nat → ρ → List Byte → Option (ρ × List Byte × Option Error)
  | 0, _, _ => none
  | fuel + 1, r, buf =>
    let rd := Reader.Read r 1
    match rd.2.1 with
    | [b] =>
      if b ∈ bs then some (rd.1, buf ++ [b], rd.2.2)
      else if rd.2.2 ≠ none then some (rd.1, buf ++ [b], rd.2.2)
      else DiscardUntilLoop bs fuel rd.1 (buf ++ [b])
    | _ =>
      if rd.2.2 ≠ none then some (rd.1, buf, rd.2.2)
      else DiscardUntilLoop bs fuel rd.1 buf

/-- What a call of `DiscardUntil` leaves: the reader, the returned bytes and error, and
what the deferred function wrote to standard output (in debug mode). -/
structure Discarded (ρ : Type) where
  r : ρ
  buf : List Byte
  err : Option Error
  stdout : List Byte

/-- The function `DiscardUntil(r, bs...)` of `utils.go`, under `Options.Debug = debug`. -/
def DiscardUntil {ρ : Type} [Reader ρ] (debug : Bool) (fuel : Nat) (r : ρ) (bs : List Byte) :
    Option (Discarded ρ) :=
  match DiscardUntilLoop bs fuel r [] with
  | none => none
  | some res =>
    some { r := res.1, buf := res.2.1, err := res.2.2,
           stdout := if debug ∧ res.2.1.length > 0 then res.2.1 else [] }

/-- The Go function `bytes.Split(s, sep)` for a separator of one byte. -/
def bytesSplit (sep : Byte) : List Byte → List (List Byte)
  | [] => [[]]
  | b :: rest =>
    if b = sep then [] :: bytesSplit sep rest
    else
      match bytesSplit sep rest with
      | [] => [[b]]
      | l :: ls => (b :: l) :: ls

/-- The Go function `bytes.Join(s, sep)`. -/
def bytesJoin (sep : List Byte) : List (List Byte) → List Byte
  | [] => []
  | [l] => l
  | l :: ls => l ++ sep ++ bytesJoin sep ls

/-- The Go function `bytes.HasSuffix(s, suffix)`. -/
def bytesHasSuffix (s suffix : List Byte) : Bool :=
  suffix.length ≤ s.length ∧ s.drop (s.length - suffix.length) = suffix

/-- What a call of `ParseConnectHostError` leaves: the reader, the returned error and the
debug output. -/
structure Parsed (ρ : Type) where
  r : ρ
  err : Option Error
  stdout : List Byte

/-- The function `ParseConnectHostError` of `utils.go`. -/
def ParseConnectHostError {ρ : Type} [Reader ρ] (debug : Bool) (fuel : Nat) (r : ρ) :
    Option (Parsed ρ) :=
  match DiscardUntil debug fuel r [36, 62] with
  | none => none
  | some d =>
    if d.err ≠ none then some { r := d.r, err := d.err, stdout := d.stdout }
    else if bytesHasSuffix d.buf [36] then some { r := d.r, err := none, stdout := d.stdout }
    else
      let lines := bytesSplit 10 d.buf
      some { r := d.r,
             err := some (errorsNew (bytesJoin [10] (lines.take (lines.length - 1)))),
             stdout := d.stdout }

/-- The fields of `RunOptions` (`main.go`). -/
structure RunOptions where
  Jumper : GoString
  User : GoString
  SSHKey : GoString
  Proxy : GoString
  Wait : Int
  Debug : Bool

/-- The network functions `AllocProxy` calls. Both belong to Go package `net`:
`SplitHostPort` returns host, port and error; `DialTimeout k network address seconds` is
the outcome of the dial that follows `k` earlier ones. -/
structure Net where
  SplitHostPort : GoString → GoString × GoString × Option Error
  DialTimeout : Nat → GoString → GoString → Int → Except Error Conn

/-- The results of `AllocProxy`: the named results `conn, host, port, err`. -/
structure Alloc where
  conn : Option Conn
  host : GoString
  port : GoString
  err : Option Error
  deriving DecidableEq

/-- The function `AllocProxy` of `utils.go`, for the dial number `k`. The lines printed to
standard error are left out; the read deadline has no counterpart in the model. -/
def AllocProxy (fuel : Nat) (net : Net) (Options : RunOptions) (k : Nat) : Option Alloc :=
  let hp := net.SplitHostPort Options.Proxy
  if hp.2.2 ≠ none then
    some { conn := none, host := hp.1, port := hp.2.1, err := hp.2.2 }
  else
    match net.DialTimeout k (str "tcp4") Options.Proxy Options.Wait with
    | .error e => some { conn := none, host := hp.1, port := hp.2.1, err := some e }
    | .ok conn =>
      match DiscardUntil false fuel conn [10] with
      | none => none
      | some d =>
        if d.err ≠ none then
          some { conn := some d.r, host := hp.1, port := hp.2.1, err := d.err }
        else if d.buf.length < 2 then
          some { conn := some d.r, host := hp.1, port := hp.2.1,
                 err := some (errorsNew (str "empty port")) }
        else
          some { conn := some d.r, host := hp.1,
                 port := d.buf.take (d.buf.length - 1), err := none }

/-- The first `n` bytes of the keystream of a cipher: what `XORKeyStream` combines with
the data, read off as the encoding of `n` zero bytes. -/
def keystream (c : Cipher) (n : Nat) : List Byte :=
  (XORKeyStream c (List.replicate n 0)).2

/-- A stand-in for the ChaCha8 generator, used where the definitions are run on concrete
inputs: byte `i` of its output is byte `i mod 32` of the seed plus `i`, modulo 256. -/
def sampleChaCha8 : ChaCha8 :=
  fun seed => (List.range 256).map (fun i => (seed.getD (i % 32) 0 + i) % 256)

/-- A connection with nothing to read (closed in order) and nothing written. -/
def emptyConn : Conn := { incoming := [], final := Error.EOF, sent := [] }

/-- The encoding of the bytes 1, 2, 3 under the port "12345" (with `sampleChaCha8`). -/
def sampleCiphertext : List Byte :=
  (XORKeyStream (newRC4 sampleChaCha8 (str "12345")) [1, 2, 3]).2

/-- A connection on which `sampleCiphertext` arrives in two pieces: its first byte, then
the rest. -/
def sampleWire : Conn :=
  { incoming := [sampleCiphertext.take 1, sampleCiphertext.drop 1], final := Error.EOF,
    sent := [] }

/-! ## `fmt` (Go standard library), as far as the source uses it -/

/-- An operand of a formatting call: an integer (`int64`) or a string. -/
inductive Arg where
  | int : Int → Arg
  | string : GoString → Arg
  deriving DecidableEq

/-- Decimal digits of a natural number, as bytes. -/
def fmtNat (n : Nat) : GoString := (Nat.toDigits 10 n).map Char.toNat

/-- Decimal form of an integer, with a leading minus sign when negative. -/
def fmtInt (v : Int) : GoString :=
  if v < 0 then 45 :: fmtNat v.natAbs else fmtNat v.natAbs

/-- The verb `%v` applied to an operand. -/
def Arg.v : Arg → GoString
  | Arg.int v => fmtInt v
  | Arg.string s => s

/-- The Go function `fmt.Sprintf(format, args...)` for formats whose only verb is `%v`
and that have one operand for each verb; `none` for anything else. -/
def Sprintf : GoString → List Arg → Option GoString
  | [], [] => some []
  | [], _ :: _ => none
  | 37 :: 118 :: rest, a :: args => (Sprintf rest args).map (fun out => a.v ++ out)
  | 37 :: _, _ => none
  | c :: rest, args => (Sprintf rest args).map (fun out => c :: out)

/-- The method `Error()` of a Go error: its message. -/
def Error.message : Error → GoString
  | Error.EOF => str "EOF"
  | Error.msg s => s

/-- The Go function `fmt.Sprintln(s)` for one string operand. -/
def Sprintln (s : GoString) : GoString := s ++ [10]

/-! ## `ssh.go` -/

/-- The type `SSHSession` of `ssh.go`: `Stdin` and `Stdout` are the two directions of the
connection `tty` to the shell on the jump host. -/
structure SSHSession where
  tty : Conn
  deriving DecidableEq

/-! ## `forward.go` -/

/-- The type `ForwardOptions` of `forward.go`. -/
structure ForwardOptions where
  Server : GoString
  Remote : GoString
  Listen : GoString
  deriving DecidableEq

/-- The format of the command line that `forward` sends to the target host. -/
def forwardFormat : GoString :=
  str "nc -4 -w %v --recv-only %v %v | nc -4 -w %v %v %v | nc -4 -w %v --send-only %v %v\r"

/-- What a run of `forward` leaves: the session (the command in `tty.sent`), the local
connection, the two rendezvous connections, and the debug output. -/
structure Forwarded where
  ssh : Option SSHSession
  conn : Conn
  c1 : Option Conn
  c2 : Option Conn
  stdout : List Byte
  deriving DecidableEq

/-- The function `forward` of `forward.go`. `client` is `client.NewSession`, `k` the number
of dials made before. The two copy workers act on disjoint halves of the connections
(the first reads `conn` and writes `c1`, the second reads `c2` and writes `conn`); the
model runs them one after the other. Lines printed to standard error are left out. -/
def forward (cc8 : ChaCha8) (fuel : Nat) (net : Net) (Options : RunOptions) (k : Nat)
    (client : GoString → Except Error SSHSession) (opts : ForwardOptions)
    (host port : GoString) (conn : Conn) : Option Forwarded :=
  match client opts.Remote with
  | .error _ => some { ssh := none, conn := conn, c1 := none, c2 := none, stdout := [] }
  | .ok ssh =>
    match AllocProxy fuel net Options k with
    | none => none
    | some a1 =>
      if a1.err ≠ none then
        some { ssh := some ssh, conn := conn, c1 := a1.conn, c2 := none, stdout := [] }
      else
        match AllocProxy fuel net Options (k + 1) with
        | none => none
        | some a2 =>
          if a2.err ≠ none then
            some { ssh := some ssh, conn := conn, c1 := a1.conn, c2 := a2.conn, stdout := [] }
          else
            match a1.conn, a2.conn,
              Sprintf forwardFormat
                [Arg.int Options.Wait, Arg.string a1.host, Arg.string a1.port,
                 Arg.int Options.Wait, Arg.string host, Arg.string port,
                 Arg.int Options.Wait, Arg.string a2.host, Arg.string a2.port] with
            | some c1, some c2, some cmd =>
              let out := if Options.Debug then Sprintln cmd else []
              let wr := Writer.Write ssh.tty cmd
              if wr.2.2 ≠ none then
                some { ssh := some { tty := wr.1 }, conn := conn, c1 := some c1, c2 := some c2,
                       stdout := out }
              else
                match ioCopy fuel (NewRC4Writer cc8 c1 a1.port) conn with
                | none => none
                | some egress =>
                  match ioCopy fuel egress.2.1 (NewRC4Reader cc8 c2 a2.port) with
                  | none => none
                  | some ingress =>
                    some { ssh := some { tty := wr.1 }, conn := ingress.1,
                           c1 := some egress.1.w, c2 := some ingress.2.1.r, stdout := out }
            | _, _, _ => none

/-! ## `sncd.go` -/

/-- What a run of `handle` leaves: the two connections and the byte counts. -/
structure Handled where
  c1 : Conn
  c2 : Option Conn
  up : Nat
  down : Nat
  deriving DecidableEq

/-- The function `handle` of `sncd.go`. `listen` is the outcome of `net.Listen("tcp4", ":0")`
(the address of the listener), `accept` the outcome of `listener.Accept()`. The two copy
workers act on disjoint halves of the connections; the model runs the one that fills
`down` first. Deadlines, the timer and the log lines are left out. -/
def handle (cc8 : ChaCha8) (fuel : Nat) (net : Net) (listen : Except Error GoString)
    (accept : Except Error Conn) (c1 : Conn) : Option Handled :=
  match listen with
  | .error _ => some { c1 := c1, c2 := none, up := 0, down := 0 }
  | .ok addr =>
    let hp := net.SplitHostPort addr
    if hp.2.2 ≠ none then some { c1 := c1, c2 := none, up := 0, down := 0 }
    else
      let port := hp.2.1
      let wr := Writer.Write c1 (Sprintln port)
      if wr.2.2 ≠ none then some { c1 := wr.1, c2 := none, up := 0, down := 0 }
      else
        match accept with
        | .error _ => some { c1 := wr.1, c2 := none, up := 0, down := 0 }
        | .ok c2 =>
          match ioCopy fuel (NewRC4Writer cc8 wr.1 port) c2 with
          | none => none
          | some dn =>
            match ioCopy fuel dn.2.1 (NewRC4Reader cc8 dn.1.w port) with
            | none => none
            | some upw =>
              some { c1 := upw.2.1.r, c2 := some upw.1, up := upw.2.2.1, down := dn.2.2.1 }

/-! ## `rsync.go` -/

/-- The fields of an `ssh.Request` that `execCmd` uses. -/
structure Request where
  WantReply : Bool
  Payload : List Byte
  deriving DecidableEq

/-- The format of the command line that `execCmd` sends to the target host. -/
def execFormat : GoString :=
  str "nc -4 -w %v --recv-only %v %v | %v | nc -4 -w %v --send-only %v %v\r"

/-- What a run of `execCmd` leaves: the replies sent to the request, the session (the
command in `tty.sent`), the channel, the two rendezvous connections, the exit status
sent on the channel, the returned error, and the debug output. -/
structure Executed where
  replies : List Bool
  ss : SSHSession
  channel : Conn
  c1 : Option Conn
  c2 : Option Conn
  exitStatus : Option Nat
  err : Option Error
  stdout : List Byte
  deriving DecidableEq

/-- The function `execCmd` of `rsync.go`. `Unmarshal` is `ssh.Unmarshal` into the one-field
message: it yields the command or an error. The two copy workers act on disjoint halves
of the connections; the model runs them one after the other. Lines printed to standard
error are left out. -/
def execCmd (cc8 : ChaCha8) (fuel : Nat) (net : Net) (Options : RunOptions) (k : Nat)
    (Unmarshal : List Byte → Except Error GoString) (ss : SSHSession) (req : Request)
    (channel : Conn) : Option Executed :=
  let reply := fun (ok : Bool) => if req.WantReply then [ok] else []
  match Unmarshal req.Payload with
  | .error e =>
    some { replies := reply false, ss := ss, channel := channel, c1 := none, c2 := none,
           exitStatus := none, err := some e, stdout := [] }
  | .ok command =>
    match AllocProxy fuel net Options k with
    | none => none
    | some a1 =>
      if a1.err ≠ none then
        some { replies := reply false, ss := ss, channel := channel, c1 := a1.conn, c2 := none,
               exitStatus := none, err := a1.err, stdout := [] }
      else
        match AllocProxy fuel net Options (k + 1) with
        | none => none
        | some a2 =>
          if a2.err ≠ none then
            some { replies := reply false, ss := ss, channel := channel, c1 := a1.conn,
                   c2 := a2.conn, exitStatus := none, err := a2.err, stdout := [] }
          else
            match a1.conn, a2.conn,
              Sprintf execFormat
                [Arg.int Options.Wait, Arg.string a1.host, Arg.string a1.port,
                 Arg.string command,
                 Arg.int Options.Wait, Arg.string a2.host, Arg.string a2.port] with
            | some c1, some c2, some cmd =>
              let out := if Options.Debug then Sprintln cmd else []
              let wr := Writer.Write ss.tty cmd
              if wr.2.2 ≠ none then
                some { replies := reply false, ss := { tty := wr.1 }, channel := channel,
                       c1 := some c1, c2 := some c2, exitStatus := none, err := wr.2.2,
                       stdout := out }
              else
                match ioCopy fuel (NewRC4Writer cc8 c1 a1.port) channel with
                | none => none
                | some egress =>
                  match ioCopy fuel egress.2.1 (NewRC4Reader cc8 c2 a2.port) with
                  | none => none
                  | some ingress =>
                    some { replies := reply true, ss := { tty := wr.1 }, channel := ingress.1,
                           c1 := some egress.1.w, c2 := some ingress.2.1.r,
                           exitStatus := some 0, err := none, stdout := out }
            | _, _, _ => none

/-- The type `RsyncOptions` of `rsync.go`. -/
structure RsyncOptions where
  Listen : GoString
  Update : Bool
  Remote : GoString
  Target : GoString
  upload : Bool
  deriving DecidableEq

/-- The Go call `strings.Contains(s, sub)` for a `sub` of one byte. -/
def stringsContains (s : GoString) (b : Byte) : Bool := decide (b ∈ s)

/-- What the direction resolution of `Rsync` leaves: the options as modified, what was
printed to standard error, and whether `Rsync` goes on (it returns otherwise). -/
structure Resolved where
  opts : RsyncOptions
  stderr : List Byte
  proceeds : Bool
  deriving DecidableEq

/-- The function `Rsync` of `rsync.go`, up to the end of its direction resolution (the
first `if` chain). `Stat p` is the error of `os.Stat(p)`, `none` when the path exists. -/
def Rsync (Stat : GoString → Option Error) (opts : RsyncOptions) : Resolved :=
  if stringsContains opts.Remote 58 then
    { opts := opts, stderr := [], proceeds := true }
  else if stringsContains opts.Target 58 then
    let opts1 := { opts with upload := true, Remote := opts.Target, Target := opts.Remote }
    match Stat opts1.Target with
    | some err => { opts := opts1, stderr := Sprintln err.message, proceeds := false }
    | none => { opts := opts1, stderr := [], proceeds := true }
  else if Stat opts.Remote = none then
    let opts1 := { opts with upload := true, Remote := opts.Target, Target := opts.Remote }
    if opts1.Remote = [] then
      { opts := opts1, stderr := Sprintln (str "no remote specified"), proceeds := false }
    else { opts := opts1, stderr := [], proceeds := true }
  else
    { opts := opts, stderr := Sprintln (str "no file specified"), proceeds := false }

/-- A bound on the number of `Read` calls (with a buffer of at least one byte) a
connection answers before it reports its final error. -/
def Conn.pending (c : Conn) : Nat := c.incoming.length + c.incoming.flatten.length

/-- What `io.Copy` returns for the final error of its source: `io.EOF` is not an error. -/
def copyErr (e : Error) : Option Error := if e = Error.EOF then none else some e

/-- A network for running the definitions on concrete inputs: every address splits into
host "relay" and port "12345", and the dial number `k` reaches a relay that greets with
the port line "4000k" followed by nothing else. -/
def sampleNet : Net :=
  { SplitHostPort := fun _ => (str "relay", str "12345", none)
    DialTimeout := fun k _ _ _ =>
      Except.ok { incoming := [str "4000" ++ fmtNat k ++ [10]], final := Error.EOF, sent := [] } }

/-- Run options for running the definitions on concrete inputs. -/
def sampleOptions : RunOptions :=
  { Jumper := str "jump", User := str "u", SSHKey := [], Proxy := str "relay:65533",
    Wait := 3, Debug := false }

/-- A connection holding the bytes 1, 2, 3 in two pieces. -/
def sampleLocal : Conn := { incoming := [[1, 2], [3]], final := Error.EOF, sent := [] }

/-- A connection holding the bytes 7, 8 in one piece. -/
def samplePeer : Conn := { incoming := [[7, 8]], final := Error.EOF, sent := [] }

/-- A shell output in which the target prompt `$` comes before a `>`. -/
def dollarFirst : Conn := { incoming := [str "$ >"], final := Error.EOF, sent := [] }

/-- The shell output of a failed hop: one error line, then the prompt of the jump host. -/
def hopFailure : Conn := { incoming := [str "no such host\n> "], final := Error.EOF, sent := [] }

/-- The shell output of a successful hop: a login line, then the prompt of the target. -/
def hopSuccess : Conn := { incoming := [str "Last login\n", str "$ "], final := Error.EOF, sent := [] }

/-- The target-side command line in the words of the specification:
`nc -4 -w W --recv-only h1 p1 | M | nc -4 -w W --send-only h2 p2\r`. -/
def specCommand (W : Int) (h1 p1 M h2 p2 : GoString) : GoString :=
  str "nc -4 -w " ++ fmtInt W ++ str " --recv-only " ++ h1 ++ str " " ++ p1 ++
    str " | " ++ M ++ str " | " ++
    str "nc -4 -w " ++ fmtInt W ++ str " --send-only " ++ h2 ++ str " " ++ p2 ++ str "\r"

/-- The middle of the command line in forward mode, in the words of the specification:
`nc -4 -w W H P`. -/
def specForwardMiddle (W : Int) (H P : GoString) : GoString :=
  str "nc -4 -w " ++ fmtInt W ++ str " " ++ H ++ str " " ++ P

/-- A client whose every new session is a fresh shell on the target host. -/
def sampleClient : GoString → Except Error SSHSession :=
  fun _ => Except.ok { tty := emptyConn }

/-- Options of the forwarder for running the definitions on concrete inputs. -/
def sampleForward : ForwardOptions :=
  { Server := str "10.0.0.5:5432", Remote := str "db1", Listen := [] }

/-- An `exec` request whose payload stands for the command "rsync --server". -/
def sampleRequest : Request := { WantReply := true, Payload := str "rsync --server" }

/-- Options of the rsync command for running the definitions on concrete inputs: the
local path "a.txt" and the remote "web1:/srv". -/
def sampleRsync : RsyncOptions :=
  { Listen := str "65222", Update := false, Remote := str "a.txt", Target := str "web1:/srv",
    upload := false }

/-- A file system in which exactly the path "a.txt" exists. -/
def sampleStat : GoString → Option Error :=
  fun p => if p = str "a.txt" then none else some (Error.msg (str "no such file or directory"))

/-! ## `strings`, `net` (Go standard library), as far as the source uses them -/

/-- The Go function `strings.IndexByte(s, c)`: the index of the first `c` in `s`, or -1. -/
def stringsIndexByte : GoString → Byte → Int
  | [], _ => -1
  | b :: rest, c =>
    if b = c then 0
    else if stringsIndexByte rest c < 0 then -1 else stringsIndexByte rest c + 1

/-- The Go function `strings.LastIndexByte(s, c)`: the index of the last `c` in `s`, or -1. -/
def stringsLastIndexByte : GoString → Byte → Int
  | [], _ => -1
  | b :: rest, c =>
    if 0 ≤ stringsLastIndexByte rest c then stringsLastIndexByte rest c + 1
    else if b = c then 0 else -1

/-- The Go slice expression `s[lo:hi]`. -/
def slice (s : GoString) (lo hi : Int) : GoString := (s.take hi.toNat).drop lo.toNat

/-- The error `&net.AddrError{Err: why, Addr: addr}`, with its message. -/
def AddrError (addr why : GoString) : Error :=
  Error.msg (str "address " ++ addr ++ str ": " ++ why)

/-- The last checks of `net.SplitHostPort`: no `[` from index `j` on, no `]` from index `k`
on; the port is what follows the colon at index `i`. -/
def SplitHostPort.finish (hostport host : GoString) (i j k : Int) :
    GoString × GoString × Option Error :=
  if 0 ≤ stringsIndexByte (hostport.drop j.toNat) 91 then
    ([], [], some (AddrError hostport (str "unexpected '[' in address")))
  else if 0 ≤ stringsIndexByte (hostport.drop k.toNat) 93 then
    ([], [], some (AddrError hostport (str "unexpected ']' in address")))
  else (host, hostport.drop (i + 1).toNat, none)

/-- The Go function `net.SplitHostPort(hostport)`: host, port and error. -/
def SplitHostPort (hostport : GoString) : GoString × GoString × Option Error :=
  let missingPort := str "missing port in address"
  let tooManyColons := str "too many colons in address"
  let i := stringsLastIndexByte hostport 58
  if i < 0 then ([], [], some (AddrError hostport missingPort))
  else if hostport.head? = some 91 then
    let last := stringsIndexByte hostport 93
    if last < 0 then ([], [], some (AddrError hostport (str "missing ']' in address")))
    else if last + 1 = hostport.length then ([], [], some (AddrError hostport missingPort))
    else if last + 1 = i then
      SplitHostPort.finish hostport (slice hostport 1 last) i 1 (last + 1)
    else if hostport.getD (last + 1).toNat 0 = 58 then
      ([], [], some (AddrError hostport tooManyColons))
    else ([], [], some (AddrError hostport missingPort))
  else
    let host := slice hostport 0 i
    if 0 ≤ stringsIndexByte host 58 then ([], [], some (AddrError hostport tooManyColons))
    else SplitHostPort.finish hostport host i 0 0

/-! ## `rsync.go`: the rsync command line -/

/-- The variable `file` of `StartRsync`: what follows the first `:` of `Remote`, empty
when `Remote` holds no `:`. -/
def StartRsync.file (opts : RsyncOptions) : GoString :=
  if 0 ≤ stringsIndexByte opts.Remote 58 then
    opts.Remote.drop (stringsIndexByte opts.Remote 58 + 1).toNat
  else []

/-- What a call of `StartRsync` leaves: the arguments of the `rsync` command it built, if
it came to build one, and the returned error. -/
structure Started where
  args : Option (List GoString)
  err : Option Error
  deriving DecidableEq

/-- The function `StartRsync` of `rsync.go`. `Start args` is the error of `cmd.Start()` for
the command `rsync args...`. The debug line and the lines printed to standard error are
left out. -/
def StartRsync (Start : List GoString → Option Error) (address : GoString)
    (opts : RsyncOptions) : Option Started :=
  let hp := SplitHostPort address
  if hp.2.2 ≠ none then some { args := none, err := hp.2.2 }
  else
    match Sprintf (str "ssh -p %v") [Arg.string hp.2.1] with
    | none => none
    | some e =>
      let args := [str "-avzhP", str "-e", e]
      let file := StartRsync.file opts
      let args :=
        if opts.upload then args ++ [opts.Target, str "127.0.0.1:" ++ file]
        else
          let args := args ++ [str "127.0.0.1:" ++ file]
          if opts.Target = [] then args ++ [str "."] else args ++ [opts.Target]
      some { args := some args, err := Start args }

/-- The host that `handleChannel` of `rsync.go` passes to `client.NewSession`: `remote` up
to its first `:`, all of `remote` when it holds no `:`. -/
def handleChannel.remote (remote : GoString) : GoString :=
  if 0 ≤ stringsIndexByte remote 58 then slice remote 0 (stringsIndexByte remote 58)
  else remote

/-! ## `forward.go`: the listen address -/

/-- What `TCPForward` leaves up to its accept loop: the options as modified, what
`fmt.Fprintln` printed to standard error, whether `NewSSHClient` was called, the address
passed to `net.Listen` if it was called, and whether the accept loop was entered. -/
structure Forwarding where
  opts : ForwardOptions
  stderr : List Byte
  connected : Bool
  listen : Option GoString
  serving : Bool
  deriving DecidableEq

/-- The function `TCPForward` of `forward.go`, up to its accept loop. `NewSSHClient` is the
error of the call `NewSSHClient()`, `Listen addr` the error of `net.Listen("tcp4", addr)`.
The line printed when the listen fails is left out. -/
def TCPForward (NewSSHClient : Option Error) (Listen : GoString → Option Error)
    (opts : ForwardOptions) : Forwarding :=
  let hp := SplitHostPort opts.Server
  let host := hp.1
  let port := hp.2.1
  if host = [] ∨ port = [] then
    { opts := opts, stderr := Sprintln (str "server address invalid, format: 'host:port'"),
      connected := false, listen := none, serving := false }
  else if opts.Remote = [] then
    { opts := opts, stderr := Sprintln (str "remote host is empty"),
      connected := false, listen := none, serving := false }
  else
    let opts1 := if opts.Listen = [] then { opts with Listen := port } else opts
    let opts2 :=
      if ¬ stringsContains opts1.Listen 58 then
        { opts1 with Listen := str "127.0.0.1:" ++ opts1.Listen }
      else opts1
    if NewSSHClient ≠ none then
      { opts := opts2, stderr := [], connected := true, listen := none, serving := false }
    else if Listen opts2.Listen ≠ none then
      { opts := opts2, stderr := [], connected := true, listen := some opts2.Listen,
        serving := false }
    else
      { opts := opts2, stderr := [], connected := true, listen := some opts2.Listen,
        serving := true }

/-- The options `Rsync` is called with for an upload of "a.txt" to the bare host "web1". -/
def bareHostRsync : RsyncOptions :=
  { Listen := str "65222", Update := false, Remote := str "a.txt", Target := str "web1",
    upload := false }

/-- The options of an upload of "a.txt" to "web1:/srv" with the update option set, as
`Rsync` resolves them. -/
def updateRsync : RsyncOptions :=
  { Listen := str "65222", Update := true, Remote := str "web1:/srv", Target := str "a.txt",
    upload := true }

/-! # Theorems -/

/-! ## Lemmas on the stream cipher -/

theorem XORKeyStream_append (c : Cipher) (a b : List Byte) :
    XORKeyStream c (a ++ b) =
      ((XORKeyStream (XORKeyStream c a).1 b).1,
       (XORKeyStream c a).2 ++ (XORKeyStream (XORKeyStream c a).1 b).2) := by
  induction a generalizing c with
  | nil => simp [XORKeyStream]
  | cons v a ih => simp [XORKeyStream, ih]

theorem XORKeyStream_length (c : Cipher) (a : List Byte) :
    (XORKeyStream c a).2.length = a.length := by
  induction a generalizing c with
  | nil => simp [XORKeyStream]
  | cons v a ih => simp [XORKeyStream, ih]

theorem XORKeyStream_state (c : Cipher) (a b : List Byte) (h : a.length = b.length) :
    (XORKeyStream c a).1 = (XORKeyStream c b).1 := by
  induction a generalizing c b with
  | nil =>
    cases b with
    | nil => rfl
    | cons _ _ => simp at h
  | cons v a ih =>
    cases b with
    | nil => simp at h
    | cons u b =>
      simp only [XORKeyStream]
      exact ih _ b (by simpa using h)

theorem XORKeyStream_involutive (c : Cipher) (a : List Byte) :
    (XORKeyStream c (XORKeyStream c a).2).2 = a := by
  induction a generalizing c with
  | nil => simp [XORKeyStream]
  | cons v a ih =>
    simp only [XORKeyStream, List.cons.injEq]
    exact ⟨Nat.xor_cancel_right _ _, ih _⟩

theorem XORKeyStream_decode_state (c : Cipher) (a : List Byte) :
    (XORKeyStream c (XORKeyStream c a).2).1 = (XORKeyStream c a).1 :=
  XORKeyStream_state c _ _ (XORKeyStream_length c a)

theorem copyInto_length (n : Nat) (src : List Byte) : (copyInto n src).length = n := by
  simp only [copyInto, List.length_append, List.length_take, List.length_replicate]
  omega

/-- The key `newRC4` passes to `rc4.NewCipher` has 256 bytes, so the call succeeds. -/
theorem newRC4_key_ok (cc8 : ChaCha8) (port : GoString) :
    newRC4 cc8 port =
      { s := ksa (copyInto 256 (cc8 (copyInto 32 port))) 256 0 0 (List.range 256),
        i := 0, j := 0 } := by
  simp [newRC4, NewCipher, copyInto_length]

/-! ## Encoder and decoder over a connection -/

theorem Conn_Read_flatten (c : Conn) (n : Nat) :
    (c.Read n).2.1 ++ (c.Read n).1.incoming.flatten = c.incoming.flatten := by
  rcases c with ⟨inc, fin, snt⟩
  cases inc with
  | nil => simp [Conn.Read]
  | cons seg rest =>
    by_cases hle : seg.length ≤ n
    · simp [Conn.Read, hle]
    · simp [Conn.Read, hle, ← List.append_assoc]

theorem Conn_Read_final (c : Conn) (n : Nat) : (c.Read n).1.final = c.final := by
  rcases c with ⟨inc, fin, snt⟩
  cases inc with
  | nil => simp [Conn.Read]
  | cons seg rest => by_cases hle : seg.length ≤ n <;> simp [Conn.Read, hle]

theorem Conn_Read_sent (c : Conn) (n : Nat) : (c.Read n).1.sent = c.sent := by
  rcases c with ⟨inc, fin, snt⟩
  cases inc with
  | nil => simp [Conn.Read]
  | cons seg rest => by_cases hle : seg.length ≤ n <;> simp [Conn.Read, hle]

theorem rc4Writer_Write_conn (rw : rc4Writer Conn) (p : List Byte) :
    rw.Write p =
      ({ w := { rw.w with sent := rw.w.sent ++ (XORKeyStream rw.c p).2 },
         c := (XORKeyStream rw.c p).1 }, p.length, none) := by
  cases p with
  | nil => simp [rc4Writer.Write, Writer.Write, Conn.Write, XORKeyStream]
  | cons v p =>
    simp [rc4Writer.Write, Writer.Write, Conn.Write, XORKeyStream_length]

theorem rc4Writer_writes_conn (rw : rc4Writer Conn) (ps : List (List Byte)) :
    rw.writes ps =
      { w := { rw.w with sent := rw.w.sent ++ (XORKeyStream rw.c ps.flatten).2 },
        c := (XORKeyStream rw.c ps.flatten).1 } := by
  induction ps generalizing rw with
  | nil => simp [rc4Writer.writes, XORKeyStream]
  | cons p ps ih =>
    have h := ih (rw.Write p).1
    simp only [rc4Writer.writes, List.foldl_cons] at h ⊢
    rw [h, rc4Writer_Write_conn]
    simp [XORKeyStream_append, List.append_assoc]

theorem rc4Reader_Read_eq {ρ : Type} [Reader ρ] (rr : rc4Reader ρ) (n : Nat) :
    rr.Read n =
      ({ r := (Reader.Read rr.r n).1, c := (XORKeyStream rr.c (Reader.Read rr.r n).2.1).1 },
       (XORKeyStream rr.c (Reader.Read rr.r n).2.1).2, (Reader.Read rr.r n).2.2) := by
  unfold rc4Reader.Read
  generalize Reader.Read rr.r n = res
  rcases res with ⟨r1, p, e⟩
  cases p with
  | nil => simp [XORKeyStream]
  | cons v p => simp

/-- What a decoder yields, followed by the decoding of what its connection still holds,
is the decoding of what the connection held before. -/
theorem rc4Reader_Read_conn (rr : rc4Reader Conn) (n : Nat) :
    (rr.Read n).2.1 ++ (XORKeyStream (rr.Read n).1.c (rr.Read n).1.r.incoming.flatten).2 =
      (XORKeyStream rr.c rr.r.incoming.flatten).2 := by
  rw [rc4Reader_Read_eq]
  have h := Conn_Read_flatten rr.r n
  simp only [Reader.Read]
  rw [← h, XORKeyStream_append]

theorem rc4Reader_reads_conn (rr : rc4Reader Conn) (ns : List Nat) :
    (rr.reads ns).2 ++ (XORKeyStream (rr.reads ns).1.c (rr.reads ns).1.r.incoming.flatten).2 =
      (XORKeyStream rr.c rr.r.incoming.flatten).2 := by
  induction ns generalizing rr with
  | nil => simp [rc4Reader.reads]
  | cons n ns ih =>
    simp only [rc4Reader.reads, List.append_assoc]
    rw [ih, rc4Reader_Read_conn]

/-- Reading with buffers exactly as large as the pieces yields every piece. -/
theorem rc4Reader_reads_pieces (c : Cipher) (r : Conn) :
    ((⟨r, c⟩ : rc4Reader Conn).reads (r.incoming.map List.length)).2 =
      (XORKeyStream c r.incoming.flatten).2 := by
  rcases r with ⟨inc, fin, snt⟩
  induction inc generalizing c with
  | nil => simp [rc4Reader.reads, XORKeyStream]
  | cons seg rest ih =>
    simp only [List.map_cons, rc4Reader.reads, rc4Reader_Read_eq, Reader.Read, Conn.Read,
      le_refl, if_true, List.flatten_cons]
    rw [ih, XORKeyStream_append]

theorem XORKeyStream_eq_zipWith (c : Cipher) (a : List Byte) :
    (XORKeyStream c a).2 = List.zipWith (fun v k => v ^^^ k) a (keystream c a.length) := by
  induction a generalizing c with
  | nil => simp [XORKeyStream]
  | cons v a ih =>
    simp only [XORKeyStream, keystream, List.length_cons, List.replicate_succ,
      List.zipWith_cons_cons, Nat.zero_xor, List.cons.injEq, true_and]
    rw [ih]
    rfl

/-! ## The codec (`crypto.go`) -/

/-- C1 (codec round trip). For every port string `P`, every split `ws` of a byte sequence
into successive `Write` calls on `NewRC4Writer(w, P)`, and every split `r.incoming` of the
bytes the encoder emitted into pieces delivered to `NewRC4Reader(r, P)`:
the emitted ciphertext is as long as the plaintext; reading piece by piece yields the
plaintext; and whatever the buffer sizes `ns` of the successive `Read` calls, the bytes
yielded so far form a prefix of the plaintext, and are the whole plaintext as soon as the
connection holds no more bytes. -/
theorem codec_round_trip (cc8 : ChaCha8) (P : GoString) (w r : Conn) (ws : List (List Byte))
    (hwire : r.incoming.flatten =
      ((NewRC4Writer cc8 w P).writes ws).w.sent.drop w.sent.length) :
    (((NewRC4Writer cc8 w P).writes ws).w.sent.drop w.sent.length).length = ws.flatten.length ∧
    ((NewRC4Reader cc8 r P).reads (r.incoming.map List.length)).2 = ws.flatten ∧
    ∀ ns : List Nat,
      ((NewRC4Reader cc8 r P).reads ns).2 <+: ws.flatten ∧
      (((NewRC4Reader cc8 r P).reads ns).1.r.incoming.flatten = [] →
        ((NewRC4Reader cc8 r P).reads ns).2 = ws.flatten) := by
  have hsent : ((NewRC4Writer cc8 w P).writes ws).w.sent.drop w.sent.length =
      (XORKeyStream (newRC4 cc8 P) ws.flatten).2 := by
    rw [rc4Writer_writes_conn]
    simp [NewRC4Writer]
  rw [hsent] at hwire ⊢
  have hdec : (XORKeyStream (newRC4 cc8 P) r.incoming.flatten).2 = ws.flatten := by
    rw [hwire]
    exact XORKeyStream_involutive _ _
  refine ⟨XORKeyStream_length _ _, ?_, ?_⟩
  · have h := rc4Reader_reads_pieces (newRC4 cc8 P) r
    rw [hdec] at h
    exact h
  · intro ns
    have h := rc4Reader_reads_conn (NewRC4Reader cc8 r P) ns
    simp only [NewRC4Reader] at h ⊢
    rw [hdec] at h
    refine ⟨⟨_, h⟩, ?_⟩
    intro hnil
    rw [hnil] at h
    simpa [XORKeyStream] using h

/-- C1 at a concrete input: port "12345", the bytes 1, 2, 3 written as [1, 2] and [3],
their ciphertext delivered in two pieces, the first byte and the rest. -/
theorem codec_round_trip_witness :
    sampleWire.incoming.flatten =
        ((NewRC4Writer sampleChaCha8 emptyConn (str "12345")).writes [[1, 2], [3]]).w.sent.drop
          emptyConn.sent.length ∧
      ((((NewRC4Writer sampleChaCha8 emptyConn (str "12345")).writes [[1, 2], [3]]).w.sent.drop
          emptyConn.sent.length).length = [[1, 2], [3]].flatten.length ∧
        ((NewRC4Reader sampleChaCha8 sampleWire (str "12345")).reads
          (sampleWire.incoming.map List.length)).2 = [[1, 2], [3]].flatten ∧
        ∀ ns : List Nat,
          ((NewRC4Reader sampleChaCha8 sampleWire (str "12345")).reads ns).2 <+:
            [[1, 2], [3]].flatten ∧
          (((NewRC4Reader sampleChaCha8 sampleWire (str "12345")).reads
              ns).1.r.incoming.flatten = [] →
            ((NewRC4Reader sampleChaCha8 sampleWire (str "12345")).reads ns).2 =
              [[1, 2], [3]].flatten)) :=
  have h : sampleWire.incoming.flatten =
      ((NewRC4Writer sampleChaCha8 emptyConn (str "12345")).writes [[1, 2], [3]]).w.sent.drop
        emptyConn.sent.length := by
    rw [rc4Writer_writes_conn]
    simp only [sampleWire, NewRC4Writer, emptyConn, List.flatten_cons, List.flatten_nil,
      List.append_nil, List.nil_append, List.cons_append, List.length_nil, List.drop_zero,
      List.take_append_drop]
    rfl
  ⟨h, codec_round_trip sampleChaCha8 (str "12345") emptyConn sampleWire [[1, 2], [3]] h⟩

/-- C2 (codec determinism). Two encoders constructed independently for the same port `P`
hold the same cipher state and hence produce the same keystream; the ciphertext each
emits is the plaintext combined bytewise with that keystream, so that two splits `ws1`,
`ws2` of the same byte sequence into `Write` calls give the same ciphertext: it depends
only on `P` and on the concatenation of the bytes written. -/
theorem codec_deterministic (cc8 : ChaCha8) (P : GoString) (w1 w2 : Conn)
    (ws1 ws2 : List (List Byte)) (hsame : ws1.flatten = ws2.flatten) :
    (∀ n, keystream (NewRC4Writer cc8 w1 P).c n = keystream (NewRC4Writer cc8 w2 P).c n) ∧
    ((NewRC4Writer cc8 w1 P).writes ws1).w.sent.drop w1.sent.length =
      ((NewRC4Writer cc8 w2 P).writes ws2).w.sent.drop w2.sent.length ∧
    ((NewRC4Writer cc8 w1 P).writes ws1).w.sent.drop w1.sent.length =
      List.zipWith (fun v k => v ^^^ k) ws1.flatten
        (keystream (newRC4 cc8 P) ws1.flatten.length) := by
  have hsent : ∀ (w : Conn) (ws : List (List Byte)),
      ((NewRC4Writer cc8 w P).writes ws).w.sent.drop w.sent.length =
        (XORKeyStream (newRC4 cc8 P) ws.flatten).2 := by
    intro w ws
    rw [rc4Writer_writes_conn]
    simp [NewRC4Writer]
  refine ⟨fun n => rfl, ?_, ?_⟩
  · rw [hsent, hsent, hsame]
  · rw [hsent, XORKeyStream_eq_zipWith]

/-- C2 at a concrete input: the bytes 1, 2, 3 written as [1, 2], [3] and as [1], [], [2, 3]. -/
theorem codec_deterministic_witness :
    [[1, 2], [3]].flatten = [[1], [], [2, 3]].flatten ∧
      ((∀ n, keystream (NewRC4Writer sampleChaCha8 emptyConn (str "12345")).c n =
          keystream (NewRC4Writer sampleChaCha8 sampleWire (str "12345")).c n) ∧
        ((NewRC4Writer sampleChaCha8 emptyConn (str "12345")).writes [[1, 2], [3]]).w.sent.drop
            emptyConn.sent.length =
          ((NewRC4Writer sampleChaCha8 sampleWire (str "12345")).writes
            [[1], [], [2, 3]]).w.sent.drop sampleWire.sent.length ∧
        ((NewRC4Writer sampleChaCha8 emptyConn (str "12345")).writes [[1, 2], [3]]).w.sent.drop
            emptyConn.sent.length =
          List.zipWith (fun v k => v ^^^ k) [[1, 2], [3]].flatten
            (keystream (newRC4 sampleChaCha8 (str "12345")) [[1, 2], [3]].flatten.length)) :=
  ⟨by decide,
   codec_deterministic sampleChaCha8 (str "12345") emptyConn sampleWire [[1, 2], [3]]
     [[1], [], [2, 3]] (by decide)⟩

/-! ## `io.Copy` between a connection and the codec -/

theorem Conn_Read_nil (c : Conn) (n : Nat) (h : c.incoming = []) :
    c.Read n = (c, [], some c.final) := by
  simp [Conn.Read, h]

theorem Conn_Read_err (c : Conn) (n : Nat) (h : c.incoming ≠ []) : (c.Read n).2.2 = none := by
  rcases c with ⟨inc, fin, snt⟩
  cases inc with
  | nil => exact absurd rfl h
  | cons seg rest => by_cases hle : seg.length ≤ n <;> simp [Conn.Read, hle]

theorem Conn_Read_pending (c : Conn) (n : Nat) (h : c.incoming ≠ []) (hn : 0 < n) :
    (c.Read n).1.pending < c.pending := by
  rcases c with ⟨inc, fin, snt⟩
  cases inc with
  | nil => exact absurd rfl h
  | cons seg rest =>
    by_cases hle : seg.length ≤ n
    · simp [Conn.Read, hle, Conn.pending]
      omega
    · simp [Conn.Read, hle, Conn.pending]
      omega

theorem Conn_Read_length (c : Conn) (n : Nat) : (c.Read n).2.1.length ≤ n := by
  rcases c with ⟨inc, fin, snt⟩
  cases inc with
  | nil => simp [Conn.Read]
  | cons seg rest =>
    by_cases hle : seg.length ≤ n
    · simp [Conn.Read, hle]
    · simp [Conn.Read, hle]

/-- Copying a connection into an encoder: with enough fuel `io.Copy` returns, having sent
the encoding of everything the connection held. -/
theorem ioCopyLoop_encode (fuel : Nat) (dst : rc4Writer Conn) (src : Conn) (written : Nat)
    (hfuel : src.pending < fuel) :
    ioCopyLoop fuel dst src written =
      some ({ w := { dst.w with sent := dst.w.sent ++ (XORKeyStream dst.c src.incoming.flatten).2 },
              c := (XORKeyStream dst.c src.incoming.flatten).1 },
            { src with incoming := [] }, written + src.incoming.flatten.length,
            copyErr src.final) := by
  induction fuel generalizing dst src written with
  | zero => omega
  | succ fuel ih =>
    by_cases hnil : src.incoming = []
    · rcases src with ⟨inc, fin, snt⟩
      simp only at hnil
      subst hnil
      rcases dst with ⟨w, c⟩
      simp [ioCopyLoop, Reader.Read, Conn.Read, XORKeyStream, copyErr]
    · have herr := Conn_Read_err src (32 * 1024) hnil
      have hpend := Conn_Read_pending src (32 * 1024) hnil (by norm_num)
      have hflat := Conn_Read_flatten src (32 * 1024)
      have hfin := Conn_Read_final src (32 * 1024)
      have hsent := Conn_Read_sent src (32 * 1024)
      unfold ioCopyLoop
      simp only [Reader.Read, Writer.Write]
      generalize Conn.Read src (32 * 1024) = rd at herr hpend hflat hfin hsent
      rcases rd with ⟨src1, p, e⟩
      simp only at herr hpend hflat hfin hsent
      subst herr
      have hsrc1 : ({ src1 with incoming := [] } : Conn) = { src with incoming := [] } := by
        rcases src1 with ⟨i1, f1, s1⟩
        rcases src with ⟨i0, f0, s0⟩
        simp only at hfin hsent
        simp [hfin, hsent]
      by_cases hp : p.length > 0
      · simp only [hp, if_true, rc4Writer_Write_conn]
        simp only [lt_self_iff_false, false_and, if_false, ne_eq, not_true_eq_false]
        rw [ih _ _ _ (by omega)]
        rw [← hflat, XORKeyStream_append, hsrc1, hfin]
        simp [List.append_assoc, Nat.add_assoc]
      · have hp0 : p = [] := by
          cases p with
          | nil => rfl
          | cons _ _ => simp at hp
        subst hp0
        simp only [List.length_nil, gt_iff_lt, lt_self_iff_false, if_false, ne_eq,
          not_true_eq_false]
        rw [ih _ _ _ (by omega)]
        rw [← hflat, hsrc1, hfin]
        simp

/-- Copying a decoder into a connection: with enough fuel `io.Copy` returns, having sent
the decoding of everything the connection of the decoder held. -/
theorem ioCopyLoop_decode (fuel : Nat) (dst : Conn) (src : rc4Reader Conn) (written : Nat)
    (hfuel : src.r.pending < fuel) :
    ioCopyLoop fuel dst src written =
      some ({ dst with sent := dst.sent ++ (XORKeyStream src.c src.r.incoming.flatten).2 },
            { r := { src.r with incoming := [] },
              c := (XORKeyStream src.c src.r.incoming.flatten).1 },
            written + src.r.incoming.flatten.length, copyErr src.r.final) := by
  induction fuel generalizing dst src written with
  | zero => omega
  | succ fuel ih =>
    rcases src with ⟨r, c⟩
    simp only at hfuel ⊢
    by_cases hnil : r.incoming = []
    · rcases r with ⟨inc, fin, snt⟩
      simp only at hnil
      subst hnil
      simp [ioCopyLoop, Reader.Read, rc4Reader.Read, Conn.Read, XORKeyStream, copyErr]
    · have herr := Conn_Read_err r (32 * 1024) hnil
      have hpend := Conn_Read_pending r (32 * 1024) hnil (by norm_num)
      have hflat := Conn_Read_flatten r (32 * 1024)
      have hfin := Conn_Read_final r (32 * 1024)
      have hsent := Conn_Read_sent r (32 * 1024)
      unfold ioCopyLoop
      simp only [Reader.Read, Writer.Write, rc4Reader_Read_eq, Conn.Write]
      generalize Conn.Read r (32 * 1024) = rd at herr hpend hflat hfin hsent
      rcases rd with ⟨r1, p, e⟩
      simp only at herr hpend hflat hfin hsent
      subst herr
      have hr1 : ({ r1 with incoming := [] } : Conn) = { r with incoming := [] } := by
        rcases r1 with ⟨i1, f1, s1⟩
        rcases r with ⟨i0, f0, s0⟩
        simp only at hfin hsent
        simp [hfin, hsent]
      simp only [XORKeyStream_length]
      by_cases hp : p.length > 0
      · simp only [hp, if_true]
        simp only [lt_self_iff_false, false_and, if_false, ne_eq, not_true_eq_false]
        rw [ih _ _ _ (by simpa using hpend.trans_le (by omega))]
        simp only
        rw [← hflat, XORKeyStream_append, hr1, hfin]
        simp [List.append_assoc, Nat.add_assoc]
      · have hp0 : p = [] := by
          cases p with
          | nil => rfl
          | cons _ _ => simp at hp
        subst hp0
        simp only [List.length_nil, gt_iff_lt, lt_self_iff_false, if_false, ne_eq,
          not_true_eq_false]
        rw [ih _ _ _ (by simpa using hpend.trans_le (by omega))]
        simp only [XORKeyStream]
        rw [← hflat, hr1, hfin]
        simp

theorem ioCopy_encode (cc8 : ChaCha8) (fuel : Nat) (w src : Conn) (P : GoString)
    (hfuel : src.pending < fuel) :
    ioCopy fuel (NewRC4Writer cc8 w P) src =
      some ({ w := { w with sent := w.sent ++ (XORKeyStream (newRC4 cc8 P) src.incoming.flatten).2 },
              c := (XORKeyStream (newRC4 cc8 P) src.incoming.flatten).1 },
            { src with incoming := [] }, src.incoming.flatten.length, copyErr src.final) := by
  unfold ioCopy
  rw [ioCopyLoop_encode fuel _ src 0 hfuel]
  simp [NewRC4Writer]

theorem ioCopy_decode (cc8 : ChaCha8) (fuel : Nat) (dst r : Conn) (P : GoString)
    (hfuel : r.pending < fuel) :
    ioCopy fuel dst (NewRC4Reader cc8 r P) =
      some ({ dst with sent := dst.sent ++ (XORKeyStream (newRC4 cc8 P) r.incoming.flatten).2 },
            { r := { r with incoming := [] },
              c := (XORKeyStream (newRC4 cc8 P) r.incoming.flatten).1 },
            r.incoming.flatten.length, copyErr r.final) := by
  unfold ioCopy
  rw [ioCopyLoop_decode fuel dst _ 0 (by simpa [NewRC4Reader] using hfuel)]
  simp [NewRC4Reader]

/-! ## The relay (`sncd.go`) -/

/-- With a listener at `addr` whose port is `P` and a peer `c2` accepted, `handle` greets
the initiator with the port line, sends it the encoding of what the peer wrote and sends
the peer the decoding of what the initiator wrote. -/
theorem handle_splice (cc8 : ChaCha8) (fuel : Nat) (net : Net) (addr h P : GoString)
    (c1 c2 : Conn) (hsplit : net.SplitHostPort addr = (h, P, none))
    (h1 : c1.pending < fuel) (h2 : c2.pending < fuel) :
    handle cc8 fuel net (.ok addr) (.ok c2) c1 =
      some { c1 := { c1 with
                     incoming := []
                     sent := c1.sent ++ Sprintln P ++
                       (XORKeyStream (newRC4 cc8 P) c2.incoming.flatten).2 },
             c2 := some { c2 with
                     incoming := []
                     sent := c2.sent ++ (XORKeyStream (newRC4 cc8 P) c1.incoming.flatten).2 },
             up := c1.incoming.flatten.length,
             down := c2.incoming.flatten.length } := by
  unfold handle
  simp only [hsplit, ne_eq, not_true_eq_false, if_false, Writer.Write, Conn.Write]
  rw [ioCopy_encode cc8 fuel _ c2 P h2]
  simp only
  rw [ioCopy_decode cc8 fuel _ _ P (by simpa [Conn.pending] using h1)]

/-- C3 (tunnel/relay splice fidelity). Let the relay listen on port `P` for one rendezvous.
(1) The local side copies its connection `conn` (holding the bytes A) through
`NewRC4Writer(lc1, P)`; with enough fuel that copy returns, and on whatever pieces the
emitted bytes arrive at the relay connection `c1`, `handle` returns having sent the peer
`c2` exactly A (and counted `up` = |A|). (2) `handle` sends the initiator its port line
and then the encoding of the bytes B the peer wrote; on whatever pieces those bytes arrive
at the initiator connection `lc2`, copying `NewRC4Reader(lc2, P)` to a connection `out`
returns having sent `out` exactly B. Both directions are the identity on byte sequences. -/
theorem splice_fidelity (cc8 : ChaCha8) (net : Net) (addr h P : GoString) (fuel : Nat)
    (conn lc1 c2 : Conn) (hsplit : net.SplitHostPort addr = (h, P, none))
    (hconn : conn.pending < fuel) (hc2 : c2.pending < fuel) :
    ∃ eg, ioCopy fuel (NewRC4Writer cc8 lc1 P) conn = some eg ∧
      ∀ c1 : Conn, c1.incoming.flatten = eg.1.w.sent.drop lc1.sent.length →
        c1.pending < fuel →
        ∃ hd peer, handle cc8 fuel net (.ok addr) (.ok c2) c1 = some hd ∧
          hd.c2 = some peer ∧
          peer.sent = c2.sent ++ conn.incoming.flatten ∧
          hd.up = conn.incoming.flatten.length ∧
          hd.down = c2.incoming.flatten.length ∧
          hd.c1.sent.take (c1.sent ++ Sprintln P).length = c1.sent ++ Sprintln P ∧
          ∀ lc2 out : Conn,
            lc2.incoming.flatten = hd.c1.sent.drop (c1.sent ++ Sprintln P).length →
            lc2.pending < fuel →
            ∃ ig, ioCopy fuel out (NewRC4Reader cc8 lc2 P) = some ig ∧
              ig.1.sent = out.sent ++ c2.incoming.flatten := by
  refine ⟨_, ioCopy_encode cc8 fuel lc1 conn P hconn, ?_⟩
  intro c1 hwire hc1
  simp only [List.drop_left] at hwire
  refine ⟨_, _, handle_splice cc8 fuel net addr h P c1 c2 hsplit hc1 hc2, rfl, ?_, ?_, rfl,
    ?_, ?_⟩
  · simp only [hwire, XORKeyStream_involutive]
  · simp only [hwire, XORKeyStream_length]
  · simp only [List.take_left]
  · intro lc2 out hwire2 hlc2
    simp only [List.drop_left] at hwire2
    refine ⟨_, ioCopy_decode cc8 fuel out lc2 P hlc2, ?_⟩
    simp only [hwire2, XORKeyStream_involutive]

/-- C3 at a concrete input: the port "12345", A = 1, 2, 3 and B = 7, 8. -/
theorem splice_fidelity_witness :
    ∃ eg, ioCopy 10 (NewRC4Writer sampleChaCha8 emptyConn (str "12345")) sampleLocal = some eg ∧
      ∀ c1 : Conn, c1.incoming.flatten = eg.1.w.sent.drop emptyConn.sent.length →
        c1.pending < 10 →
        ∃ hd peer, handle sampleChaCha8 10 sampleNet (.ok (str "0.0.0.0:12345"))
            (.ok samplePeer) c1 = some hd ∧
          hd.c2 = some peer ∧
          peer.sent = samplePeer.sent ++ sampleLocal.incoming.flatten ∧
          hd.up = sampleLocal.incoming.flatten.length ∧
          hd.down = samplePeer.incoming.flatten.length ∧
          hd.c1.sent.take (c1.sent ++ Sprintln (str "12345")).length =
            c1.sent ++ Sprintln (str "12345") ∧
          ∀ lc2 out : Conn,
            lc2.incoming.flatten = hd.c1.sent.drop (c1.sent ++ Sprintln (str "12345")).length →
            lc2.pending < 10 →
            ∃ ig, ioCopy 10 out (NewRC4Reader sampleChaCha8 lc2 (str "12345")) = some ig ∧
              ig.1.sent = out.sent ++ samplePeer.incoming.flatten :=
  splice_fidelity sampleChaCha8 sampleNet (str "0.0.0.0:12345") (str "relay") (str "12345") 10
    sampleLocal emptyConn samplePeer rfl (by decide) (by decide)

/-! ## The prompt parser (`utils.go`) -/

/-- A list that contains a byte of `bs` splits at the first such byte. -/
theorem exists_first_target (bs s : List Byte) (h : ∃ b ∈ s, b ∈ bs) :
    ∃ pre t post, s = pre ++ t :: post ∧ t ∈ bs ∧ ∀ b ∈ pre, b ∉ bs := by
  induction s with
  | nil => simp at h
  | cons a s ih =>
    by_cases ha : a ∈ bs
    · exact ⟨[], a, s, rfl, ha, by simp⟩
    · have h1 : ∃ b ∈ s, b ∈ bs := by
        rcases h with ⟨b, hb, hbs⟩
        rcases List.mem_cons.mp hb with rfl | hb1
        · exact absurd hbs ha
        · exact ⟨b, hb1, hbs⟩
      rcases ih h1 with ⟨pre, t, post, hs, ht, hpre⟩
      refine ⟨a :: pre, t, post, by simp [hs], ht, ?_⟩
      intro b hb
      rcases List.mem_cons.mp hb with rfl | hb1
      · exact ha
      · exact hpre b hb1

/-- The loop of `DiscardUntil` on a connection that holds a target byte: with enough
fuel it returns the bytes up to and including the first target byte, with a nil error,
and leaves the bytes after it unread. -/
theorem DiscardUntilLoop_found (bs : List Byte) (fuel : Nat) (c : Conn)
    (buf pre post : List Byte) (t : Byte)
    (hs : c.incoming.flatten = pre ++ t :: post) (ht : t ∈ bs) (hpre : ∀ b ∈ pre, b ∉ bs)
    (hfuel : c.pending < fuel) :
    ∃ c1 : Conn, DiscardUntilLoop bs fuel c buf = some (c1, buf ++ pre ++ [t], none) ∧
      c1.incoming.flatten = post ∧ c1.final = c.final ∧ c1.sent = c.sent := by
  induction fuel generalizing c buf pre with
  | zero => omega
  | succ fuel ih =>
    have hnil : c.incoming ≠ [] := by
      intro h0
      rw [h0] at hs
      simp at hs
    have herr := Conn_Read_err c 1 hnil
    have hpend := Conn_Read_pending c 1 hnil (by norm_num)
    have hflat := Conn_Read_flatten c 1
    have hfin := Conn_Read_final c 1
    have hsent := Conn_Read_sent c 1
    have hlen := Conn_Read_length c 1
    unfold DiscardUntilLoop
    simp only [Reader.Read]
    generalize Conn.Read c 1 = rd at herr hpend hflat hfin hsent hlen
    rcases rd with ⟨c1, p, e⟩
    simp only at herr hpend hflat hfin hsent hlen
    subst herr
    rw [hs] at hflat
    match p, hlen, hflat with
    | [], _, hflat =>
      simp only [ne_eq, not_true_eq_false, if_false]
      rcases ih c1 buf pre (by simpa using hflat) hpre (by omega) with ⟨c2, h1, h2, h3, h4⟩
      exact ⟨c2, h1, h2, h3.trans hfin, h4.trans hsent⟩
    | [b], _, hflat =>
      cases pre with
      | nil =>
        simp only [List.singleton_append, List.nil_append, List.cons.injEq] at hflat
        rcases hflat with ⟨rfl, hpost⟩
        simp only [ht, if_true, List.append_nil]
        exact ⟨c1, rfl, hpost, hfin, hsent⟩
      | cons a pre1 =>
        simp only [List.singleton_append, List.cons_append, List.cons.injEq] at hflat
        rcases hflat with ⟨rfl, hrest⟩
        have hb : b ∉ bs := hpre b (by simp)
        simp only [hb, if_false, ne_eq, not_true_eq_false]
        rcases ih c1 (buf ++ [b]) pre1 hrest (fun x hx => hpre x (by simp [hx])) (by omega)
          with ⟨c2, h1, h2, h3, h4⟩
        refine ⟨c2, ?_, h2, h3.trans hfin, h4.trans hsent⟩
        rw [h1]
        simp [List.append_assoc]
    | _ :: _ :: _, hlen, _ => simp at hlen

/-- The loop of `DiscardUntil` on a connection that holds no target byte: with enough
fuel it returns everything the connection held, with the final error of the connection. -/
theorem DiscardUntilLoop_final (bs : List Byte) (fuel : Nat) (c : Conn) (buf : List Byte)
    (hs : ∀ b ∈ c.incoming.flatten, b ∉ bs) (hfuel : c.pending < fuel) :
    DiscardUntilLoop bs fuel c buf =
      some ({ c with incoming := [] }, buf ++ c.incoming.flatten, some c.final) := by
  induction fuel generalizing c buf with
  | zero => omega
  | succ fuel ih =>
    by_cases hnil : c.incoming = []
    · rcases c with ⟨inc, fin, snt⟩
      simp only at hnil
      subst hnil
      simp [DiscardUntilLoop, Reader.Read, Conn.Read]
    · have herr := Conn_Read_err c 1 hnil
      have hpend := Conn_Read_pending c 1 hnil (by norm_num)
      have hflat := Conn_Read_flatten c 1
      have hfin := Conn_Read_final c 1
      have hsent := Conn_Read_sent c 1
      have hlen := Conn_Read_length c 1
      unfold DiscardUntilLoop
      simp only [Reader.Read]
      generalize Conn.Read c 1 = rd at herr hpend hflat hfin hsent hlen
      rcases rd with ⟨c1, p, e⟩
      simp only at herr hpend hflat hfin hsent hlen
      subst herr
      have hc1 : ({ c1 with incoming := [] } : Conn) = { c with incoming := [] } := by
        rcases c1 with ⟨i1, f1, s1⟩
        rcases c with ⟨i0, f0, s0⟩
        simp only at hfin hsent
        simp [hfin, hsent]
      rw [← hflat] at hs
      match p, hlen, hflat, hs with
      | [], _, hflat, hs =>
        simp only [ne_eq, not_true_eq_false, if_false]
        rw [ih c1 buf (by simpa using hs) (by omega), hc1, hfin, ← hflat]
        simp
      | [b], _, hflat, hs =>
        have hb : b ∉ bs := hs b (by simp)
        simp only [hb, if_false, ne_eq, not_true_eq_false]
        rw [ih c1 (buf ++ [b]) (fun x hx => hs x (by simp [hx])) (by omega), hc1, hfin, ← hflat]
        simp [List.append_assoc]
      | _ :: _ :: _, hlen, _, _ => simp at hlen

theorem DiscardUntil_found (debug : Bool) (bs : List Byte) (fuel : Nat) (c : Conn)
    (pre post : List Byte) (t : Byte)
    (hs : c.incoming.flatten = pre ++ t :: post) (ht : t ∈ bs) (hpre : ∀ b ∈ pre, b ∉ bs)
    (hfuel : c.pending < fuel) :
    ∃ c1 : Conn,
      DiscardUntil debug fuel c bs =
        some { r := c1, buf := pre ++ [t], err := none,
               stdout := if debug = true then pre ++ [t] else [] } ∧
      c1.incoming.flatten = post ∧ c1.final = c.final ∧ c1.sent = c.sent := by
  rcases DiscardUntilLoop_found bs fuel c [] pre post t hs ht hpre hfuel with ⟨c1, h1, h2, h3, h4⟩
  refine ⟨c1, ?_, h2, h3, h4⟩
  unfold DiscardUntil
  rw [h1]
  simp

theorem DiscardUntil_final (debug : Bool) (bs : List Byte) (fuel : Nat) (c : Conn)
    (hs : ∀ b ∈ c.incoming.flatten, b ∉ bs) (hfuel : c.pending < fuel) :
    DiscardUntil debug fuel c bs =
      some { r := { c with incoming := [] }, buf := c.incoming.flatten, err := some c.final,
             stdout := if debug = true ∧ c.incoming.flatten.length > 0
               then c.incoming.flatten else [] } := by
  unfold DiscardUntil
  rw [DiscardUntilLoop_final bs fuel c [] hs hfuel]
  simp

/-- C4 (DiscardUntil prefix). When the bytes a connection still delivers contain a byte of
`bs`, then (with fuel for the reads) `DiscardUntil(r, bs...)` returns; the stream splits at
the first target byte `t` as `pre ++ t :: post`; the returned bytes are `pre ++ [t]`, the
error is nil, and exactly `post` is left unread. -/
theorem DiscardUntil_prefix (debug : Bool) (fuel : Nat) (c : Conn) (bs : List Byte)
    (hhit : ∃ b ∈ c.incoming.flatten, b ∈ bs) (hfuel : c.pending < fuel) :
    ∃ pre t post d, c.incoming.flatten = pre ++ t :: post ∧ t ∈ bs ∧ (∀ b ∈ pre, b ∉ bs) ∧
      DiscardUntil debug fuel c bs = some d ∧ d.buf = pre ++ [t] ∧ d.err = none ∧
      d.r.incoming.flatten = post := by
  rcases exists_first_target bs _ hhit with ⟨pre, t, post, hs, ht, hpre⟩
  rcases DiscardUntil_found debug bs fuel c pre post t hs ht hpre hfuel with ⟨c1, h1, h2, _, _⟩
  exact ⟨pre, t, post, _, hs, ht, hpre, h1, rfl, rfl, h2⟩

/-- C4 at a concrete input: the stream "Last login\n", "$ " and the target byte `$`. -/
theorem DiscardUntil_prefix_witness :
    ∃ pre t post d, hopSuccess.incoming.flatten = pre ++ t :: post ∧ t ∈ [36] ∧
      (∀ b ∈ pre, b ∉ [36]) ∧
      DiscardUntil false 20 hopSuccess [36] = some d ∧ d.buf = pre ++ [t] ∧ d.err = none ∧
      d.r.incoming.flatten = post :=
  DiscardUntil_prefix false 20 hopSuccess [36] ⟨36, by decide, by decide⟩ (by decide)

/-! ### Splitting and joining lines -/

theorem bytesSplit_ne_nil (sep : Byte) (s : List Byte) : bytesSplit sep s ≠ [] := by
  cases s with
  | nil => simp [bytesSplit]
  | cons b rest =>
    unfold bytesSplit
    by_cases hb : b = sep
    · simp [hb]
    · simp only [hb, if_false]
      cases bytesSplit sep rest <;> simp

theorem bytesSplit_line (sep : Byte) (l s : List Byte) (hl : sep ∉ l) :
    bytesSplit sep (l ++ sep :: s) = l :: bytesSplit sep s := by
  induction l with
  | nil => simp [bytesSplit]
  | cons b l ih =>
    have hb : b ≠ sep := fun h => hl (by simp [h])
    have hl1 : sep ∉ l := fun h => hl (by simp [h])
    rw [List.cons_append, bytesSplit]
    simp only [hb, if_false]
    rw [ih hl1]

theorem bytesSplit_last (sep : Byte) (l : List Byte) (hl : sep ∉ l) :
    bytesSplit sep l = [l] := by
  induction l with
  | nil => simp [bytesSplit]
  | cons b l ih =>
    have hb : b ≠ sep := fun h => hl (by simp [h])
    have hl1 : sep ∉ l := fun h => hl (by simp [h])
    rw [bytesSplit]
    simp only [hb, if_false]
    rw [ih hl1]

theorem bytesJoin_cons_cons (sep : List Byte) (l l1 : List Byte) (ls : List (List Byte)) :
    bytesJoin sep (l :: l1 :: ls) = l ++ sep ++ bytesJoin sep (l1 :: ls) := by
  simp [bytesJoin]

/-- Joining lines, the last one being `x ++ y`. -/
theorem bytesJoin_snoc_append (sep : List Byte) (ls : List (List Byte)) (x y : List Byte) :
    bytesJoin sep (ls ++ [x ++ y]) = bytesJoin sep (ls ++ [x]) ++ y := by
  induction ls with
  | nil => simp [bytesJoin]
  | cons l ls ih =>
    cases ls with
    | nil => simp [bytesJoin, List.append_assoc]
    | cons l1 ls1 =>
      simp only [List.cons_append] at ih ⊢
      rw [bytesJoin_cons_cons, bytesJoin_cons_cons, ih]
      simp [List.append_assoc]

/-- Splitting what was joined gives the lines back, when no line holds the separator. -/
theorem bytesSplit_bytesJoin (sep : Byte) (ls : List (List Byte)) (x : List Byte)
    (hls : ∀ l ∈ ls, sep ∉ l) (hx : sep ∉ x) :
    bytesSplit sep (bytesJoin [sep] (ls ++ [x])) = ls ++ [x] := by
  induction ls with
  | nil => simpa [bytesJoin] using bytesSplit_last sep x hx
  | cons l ls ih =>
    have hl : sep ∉ l := hls l (by simp)
    have h1 := ih (fun m hm => hls m (by simp [hm]))
    cases ls with
    | nil =>
      simp only [List.nil_append] at h1
      simp only [List.cons_append, List.nil_append, bytesJoin_cons_cons, List.append_assoc,
        List.singleton_append]
      rw [bytesSplit_line sep l _ hl, h1]
    | cons l1 ls1 =>
      simp only [List.cons_append] at h1 ⊢
      rw [bytesJoin_cons_cons]
      simp only [List.append_assoc, List.singleton_append]
      rw [bytesSplit_line sep l _ hl, h1]

theorem mem_bytesJoin (sep : List Byte) (ls : List (List Byte)) (b : Byte)
    (hb : b ∈ bytesJoin sep ls) : b ∈ sep ∨ ∃ l ∈ ls, b ∈ l := by
  induction ls with
  | nil => simp [bytesJoin] at hb
  | cons l ls ih =>
    cases ls with
    | nil =>
      simp only [bytesJoin] at hb
      exact Or.inr ⟨l, by simp, hb⟩
    | cons l1 ls1 =>
      rw [bytesJoin_cons_cons] at hb
      simp only [List.mem_append] at hb
      rcases hb with (h | h) | h
      · exact Or.inr ⟨l, by simp, h⟩
      · exact Or.inl h
      · rcases ih h with h2 | ⟨m, hm, hbm⟩
        · exact Or.inl h2
        · exact Or.inr ⟨m, by simp [hm], hbm⟩

theorem bytesHasSuffix_snoc (pre : List Byte) (t x : Byte) :
    bytesHasSuffix (pre ++ [t]) [x] = decide (t = x) := by
  simp [bytesHasSuffix]

/-- C5, the claim as stated fails: the stream "$ >" contains `>`, yet
`ParseConnectHostError` stops at the `$` before it and returns nil, leaving " >" unread. -/
theorem hop_failure_counterexample :
    62 ∈ dollarFirst.incoming.flatten ∧ dollarFirst.pending < 10 ∧
      (ParseConnectHostError false 10 dollarFirst).map (fun d => (d.err, d.r.incoming)) =
        some (none, [str " >"]) := by
  decide

/-- C5 as amended (hop failure parsing). When the stream reaches a `>` with no `$` before
it, that is, when it starts with the lines `lines`, each followed by "\n", then a prompt
line `prompt` followed by `>` (no `$`, `>` or "\n" inside the lines and the prompt), then
`ParseConnectHostError` returns a non-nil error whose message is the lines before the
prompt line joined by "\n"; everything after the `>` is left unread. -/
theorem hop_failure_parsing (debug : Bool) (fuel : Nat) (c : Conn)
    (lines : List (List Byte)) (prompt post : List Byte)
    (hstream : c.incoming.flatten = bytesJoin [10] (lines ++ [prompt ++ [62]]) ++ post)
    (hlines : ∀ l ∈ lines, ∀ b ∈ l, b ≠ 10 ∧ b ≠ 36 ∧ b ≠ 62)
    (hprompt : ∀ b ∈ prompt, b ≠ 10 ∧ b ≠ 36 ∧ b ≠ 62)
    (hfuel : c.pending < fuel) :
    ∃ d, ParseConnectHostError debug fuel c = some d ∧
      d.err = some (errorsNew (bytesJoin [10] lines)) ∧
      d.r.incoming.flatten = post := by
  have hs : c.incoming.flatten = bytesJoin [10] (lines ++ [prompt]) ++ 62 :: post := by
    rw [hstream, bytesJoin_snoc_append]
    simp [List.append_assoc]
  have hpre : ∀ b ∈ bytesJoin [10] (lines ++ [prompt]), b ∉ [36, 62] := by
    intro b hb
    rcases mem_bytesJoin _ _ _ hb with h | ⟨l, hl, hbl⟩
    · have hb10 : b = 10 := by simpa using h
      subst hb10
      decide
    · have h3 : b ≠ 10 ∧ b ≠ 36 ∧ b ≠ 62 := by
        rcases List.mem_append.mp hl with h1 | h1
        · exact hlines l h1 b hbl
        · have hlp : l = prompt := by simpa using h1
          subst hlp
          exact hprompt b hbl
      simp [h3.2.1, h3.2.2]
  rcases DiscardUntil_found debug [36, 62] fuel c _ post 62 hs (by decide) hpre hfuel
    with ⟨c1, h1, h2, _, _⟩
  have hsplit : bytesSplit 10 (bytesJoin [10] (lines ++ [prompt]) ++ [62]) =
      lines ++ [prompt ++ [62]] := by
    rw [← bytesJoin_snoc_append]
    apply bytesSplit_bytesJoin
    · intro l hl h10
      exact (hlines l hl 10 h10).1 rfl
    · intro h10
      rcases List.mem_append.mp h10 with h | h
      · exact (hprompt 10 h).1 rfl
      · simp at h
  have hres : ParseConnectHostError debug fuel c =
      some { r := c1, err := some (errorsNew (bytesJoin [10] lines)),
             stdout := if debug = true then bytesJoin [10] (lines ++ [prompt]) ++ [62] else [] } := by
    unfold ParseConnectHostError
    rw [h1]
    simp only [ne_eq, not_true_eq_false, if_false, bytesHasSuffix_snoc, hsplit]
    simp
  exact ⟨_, hres, rfl, h2⟩

/-- C5 as amended, at the stream "no such host\n> ": the message is "no such host". -/
theorem hop_failure_parsing_witness :
    ∃ d, ParseConnectHostError false 20 hopFailure = some d ∧
      d.err = some (errorsNew (str "no such host")) ∧
      d.r.incoming.flatten = [32] :=
  hop_failure_parsing false 20 hopFailure [str "no such host"] [] [32]
    (by decide) (by decide) (by decide) (by decide)

/-- C6 (hop success parsing). When the stream reaches a `$` with no `>` before it, that
is, when it is `pre ++ $ :: post` with neither `$` nor `>` in `pre`, then
`ParseConnectHostError` returns nil, and exactly `post` is left unread. -/
theorem hop_success_parsing (debug : Bool) (fuel : Nat) (c : Conn) (pre post : List Byte)
    (hstream : c.incoming.flatten = pre ++ 36 :: post)
    (hpre : ∀ b ∈ pre, b ≠ 36 ∧ b ≠ 62) (hfuel : c.pending < fuel) :
    ∃ d, ParseConnectHostError debug fuel c = some d ∧ d.err = none ∧
      d.r.incoming.flatten = post := by
  have hpre1 : ∀ b ∈ pre, b ∉ [36, 62] := by
    intro b hb
    have h := hpre b hb
    simp [h.1, h.2]
  rcases DiscardUntil_found debug [36, 62] fuel c pre post 36 hstream (by decide) hpre1 hfuel
    with ⟨c1, h1, h2, _, _⟩
  have hres : ParseConnectHostError debug fuel c =
      some { r := c1, err := none, stdout := if debug = true then pre ++ [36] else [] } := by
    unfold ParseConnectHostError
    rw [h1]
    simp only [ne_eq, not_true_eq_false, if_false, bytesHasSuffix_snoc]
    simp
  exact ⟨_, hres, rfl, h2⟩

/-- C6 at the stream "Last login\n", "$ ". -/
theorem hop_success_parsing_witness :
    ∃ d, ParseConnectHostError false 20 hopSuccess = some d ∧ d.err = none ∧
      d.r.incoming.flatten = [32] :=
  hop_success_parsing false 20 hopSuccess (str "Last login\n") [32]
    (by decide) (by decide) (by decide)

/-! ## The proxy allocator (`utils.go`) -/

/-- C7 (AllocProxy port-line parsing). Given that the proxy address splits and the dial
succeeds with the connection `conn`, and given fuel for the reads: if the greeting is a
non-empty line `L` (without "\n") followed by "\n", `AllocProxy` succeeds with
port = `L` and the host part of the proxy address, leaving what follows the line unread;
if the greeting starts with "\n", it fails with the error "empty port"; and if the
stream holds no "\n" at all, it fails with the final error of the stream. -/
theorem AllocProxy_port_line (fuel : Nat) (net : Net) (Options : RunOptions) (k : Nat)
    (host pport : GoString) (conn : Conn)
    (hsplit : net.SplitHostPort Options.Proxy = (host, pport, none))
    (hdial : net.DialTimeout k (str "tcp4") Options.Proxy Options.Wait = .ok conn)
    (hfuel : conn.pending < fuel) :
    (∀ L post, conn.incoming.flatten = L ++ 10 :: post → 10 ∉ L → L ≠ [] →
      ∃ c1 : Conn, AllocProxy fuel net Options k =
          some { conn := some c1, host := host, port := L, err := none } ∧
        c1.incoming.flatten = post) ∧
    (∀ post, conn.incoming.flatten = 10 :: post →
      ∃ c1 : Conn, AllocProxy fuel net Options k =
        some { conn := some c1, host := host, port := pport,
               err := some (errorsNew (str "empty port")) }) ∧
    (10 ∉ conn.incoming.flatten →
      AllocProxy fuel net Options k =
        some { conn := some { conn with incoming := [] }, host := host, port := pport,
               err := some conn.final }) := by
  refine ⟨?_, ?_, ?_⟩
  · intro L post hs hL hne
    rcases DiscardUntil_found false [10] fuel conn L post 10 hs (by simp)
      (fun b hb h10 => hL (by simpa using (List.mem_singleton.mp h10) ▸ hb)) hfuel
      with ⟨c1, h1, h2, _, _⟩
    refine ⟨c1, ?_, h2⟩
    unfold AllocProxy
    simp only [hsplit, hdial, h1, ne_eq, not_true_eq_false, if_false]
    have hlen : 1 ≤ L.length := by
      cases L with
      | nil => exact absurd rfl hne
      | cons _ _ => simp
    simp [hlen]
  · intro post hs
    rcases DiscardUntil_found false [10] fuel conn [] post 10 (by simpa using hs) (by simp)
      (by simp) hfuel with ⟨c1, h1, _, _, _⟩
    refine ⟨c1, ?_⟩
    unfold AllocProxy
    simp only [hsplit, hdial, h1, ne_eq, not_true_eq_false, if_false]
    simp only [List.nil_append, List.length_singleton, Nat.one_lt_ofNat, if_true]
  · intro hno
    have h1 := DiscardUntil_final false [10] fuel conn
      (fun b hb h10 => hno ((List.mem_singleton.mp h10) ▸ hb)) hfuel
    unfold AllocProxy
    simp only [hsplit, hdial, h1, ne_eq, reduceCtorEq, not_false_eq_true, not_true_eq_false,
      if_false, if_true]

/-- C7 at a concrete input: the relay greets the first dial with "40000\n", and
`AllocProxy` returns the port "40000" and the host "relay". -/
theorem AllocProxy_port_line_witness :
    ∃ c1 : Conn, AllocProxy 10 sampleNet sampleOptions 0 =
        some { conn := some c1, host := str "relay", port := str "40000", err := none } ∧
      c1.incoming.flatten = [] :=
  (AllocProxy_port_line 10 sampleNet sampleOptions 0 (str "relay") (str "12345")
    { incoming := [str "4000" ++ fmtNat 0 ++ [10]], final := Error.EOF, sent := [] }
    rfl rfl (by decide)).1 (str "40000") [] (by decide) (by decide) (by decide)

theorem Sprintf_forwardFormat (W : Int) (h1 p1 H P h2 p2 : GoString) :
    Sprintf forwardFormat
        [Arg.int W, Arg.string h1, Arg.string p1, Arg.int W, Arg.string H, Arg.string P,
         Arg.int W, Arg.string h2, Arg.string p2] =
      some (specCommand W h1 p1 (specForwardMiddle W H P) h2 p2) := by
  have h : Sprintf forwardFormat
      [Arg.int W, Arg.string h1, Arg.string p1, Arg.int W, Arg.string H, Arg.string P,
       Arg.int W, Arg.string h2, Arg.string p2] =
      some (str "nc -4 -w " ++ (fmtInt W ++ (str " --recv-only " ++ (h1 ++ (str " " ++ (p1 ++
        (str " | " ++ (str "nc -4 -w " ++ (fmtInt W ++ (str " " ++ (H ++ (str " " ++ (P ++
        (str " | " ++ (str "nc -4 -w " ++ (fmtInt W ++ (str " --send-only " ++ (h2 ++
        (str " " ++ (p2 ++ str "\r")))))))))))))))))))) := rfl
  rw [h]
  simp only [specCommand, specForwardMiddle, List.append_assoc]

theorem Sprintf_execFormat (W : Int) (h1 p1 CMD h2 p2 : GoString) :
    Sprintf execFormat
        [Arg.int W, Arg.string h1, Arg.string p1, Arg.string CMD,
         Arg.int W, Arg.string h2, Arg.string p2] =
      some (specCommand W h1 p1 CMD h2 p2) := by
  have h : Sprintf execFormat
      [Arg.int W, Arg.string h1, Arg.string p1, Arg.string CMD,
       Arg.int W, Arg.string h2, Arg.string p2] =
      some (str "nc -4 -w " ++ (fmtInt W ++ (str " --recv-only " ++ (h1 ++ (str " " ++ (p1 ++
        (str " | " ++ (CMD ++
        (str " | " ++ (str "nc -4 -w " ++ (fmtInt W ++ (str " --send-only " ++ (h2 ++
        (str " " ++ (p2 ++ str "\r"))))))))))))))) := rfl
  rw [h]
  simp only [specCommand, List.append_assoc]

/-- A run of `forward` in which the session opens and both rendezvous are allocated: the
command line goes to the session, the local bytes go to the first rendezvous encoded
under its port, and the bytes of the second rendezvous come back decoded under its port. -/
theorem forward_run (cc8 : ChaCha8) (fuel : Nat) (net : Net) (Options : RunOptions) (k : Nat)
    (client : GoString → Except Error SSHSession) (opts : ForwardOptions)
    (host port : GoString) (conn : Conn) (ssh : SSHSession) (a1 a2 : Alloc) (c1 c2 : Conn)
    (hsession : client opts.Remote = .ok ssh)
    (h1 : AllocProxy fuel net Options k = some a1) (h1ok : a1.err = none)
    (h1c : a1.conn = some c1)
    (h2 : AllocProxy fuel net Options (k + 1) = some a2) (h2ok : a2.err = none)
    (h2c : a2.conn = some c2)
    (hconn : conn.pending < fuel) (hc2 : c2.pending < fuel) :
    forward cc8 fuel net Options k client opts host port conn =
      some { ssh := some { tty := { ssh.tty with
               sent := ssh.tty.sent ++
                 specCommand Options.Wait a1.host a1.port
                   (specForwardMiddle Options.Wait host port) a2.host a2.port } },
             conn := { conn with
               incoming := []
               sent := conn.sent ++ (XORKeyStream (newRC4 cc8 a2.port) c2.incoming.flatten).2 },
             c1 := some { c1 with
               sent := c1.sent ++ (XORKeyStream (newRC4 cc8 a1.port) conn.incoming.flatten).2 },
             c2 := some { c2 with incoming := [] },
             stdout := if Options.Debug = true then
               Sprintln (specCommand Options.Wait a1.host a1.port
                 (specForwardMiddle Options.Wait host port) a2.host a2.port) else [] } := by
  unfold forward
  simp only [hsession, h1, h1ok, h2, h2ok, h1c, h2c, Sprintf_forwardFormat, ne_eq,
    not_true_eq_false, if_false, Writer.Write, Conn.Write]
  rw [ioCopy_encode cc8 fuel c1 conn a1.port hconn]
  simp only
  rw [ioCopy_decode cc8 fuel _ c2 a2.port hc2]

/-- A run of `execCmd` in which the request unmarshals to `CMD` and both rendezvous are
allocated. -/
theorem execCmd_run (cc8 : ChaCha8) (fuel : Nat) (net : Net) (Options : RunOptions) (k : Nat)
    (Unmarshal : List Byte → Except Error GoString) (ss : SSHSession) (req : Request)
    (channel : Conn) (CMD : GoString) (a1 a2 : Alloc) (c1 c2 : Conn)
    (hcmd : Unmarshal req.Payload = .ok CMD)
    (h1 : AllocProxy fuel net Options k = some a1) (h1ok : a1.err = none)
    (h1c : a1.conn = some c1)
    (h2 : AllocProxy fuel net Options (k + 1) = some a2) (h2ok : a2.err = none)
    (h2c : a2.conn = some c2)
    (hchannel : channel.pending < fuel) (hc2 : c2.pending < fuel) :
    execCmd cc8 fuel net Options k Unmarshal ss req channel =
      some { replies := if req.WantReply = true then [true] else [],
             ss := { tty := { ss.tty with
               sent := ss.tty.sent ++
                 specCommand Options.Wait a1.host a1.port CMD a2.host a2.port } },
             channel := { channel with
               incoming := []
               sent := channel.sent ++
                 (XORKeyStream (newRC4 cc8 a2.port) c2.incoming.flatten).2 },
             c1 := some { c1 with
               sent := c1.sent ++
                 (XORKeyStream (newRC4 cc8 a1.port) channel.incoming.flatten).2 },
             c2 := some { c2 with incoming := [] },
             exitStatus := some 0,
             err := none,
             stdout := if Options.Debug = true then
               Sprintln (specCommand Options.Wait a1.host a1.port CMD a2.host a2.port)
               else [] } := by
  unfold execCmd
  simp only [hcmd, h1, h1ok, h2, h2ok, h1c, h2c, Sprintf_execFormat, ne_eq,
    not_true_eq_false, if_false, Writer.Write, Conn.Write]
  rw [ioCopy_encode cc8 fuel c1 channel a1.port hchannel]
  simp only
  rw [ioCopy_decode cc8 fuel _ c2 a2.port hc2]

/-- C9 (target-side command template). Let the session be open, let the first call of
`AllocProxy` give the rendezvous (h1, p1) and the second (h2, p2), and let W be the wait
value. In forward mode `forward` writes to the session exactly
"nc -4 -w W --recv-only h1 p1 | nc -4 -w W H P | nc -4 -w W --send-only h2 p2\r";
in exec mode `execCmd` writes exactly
"nc -4 -w W --recv-only h1 p1 | CMD | nc -4 -w W --send-only h2 p2\r" with CMD the
unmarshalled command. In both, what reaches the first rendezvous connection is the local
input encoded under p1, and what reaches the local side is the input of the second
rendezvous connection decoded under p2. -/
theorem target_command_template (cc8 : ChaCha8) (fuel : Nat) (net : Net)
    (Options : RunOptions) (k : Nat)
    (client : GoString → Except Error SSHSession) (opts : ForwardOptions)
    (host port : GoString) (conn : Conn) (ssh : SSHSession)
    (Unmarshal : List Byte → Except Error GoString) (ss : SSHSession) (req : Request)
    (channel : Conn) (CMD : GoString) (a1 a2 : Alloc) (c1 c2 : Conn)
    (hsession : client opts.Remote = .ok ssh)
    (hcmd : Unmarshal req.Payload = .ok CMD)
    (h1 : AllocProxy fuel net Options k = some a1) (h1ok : a1.err = none)
    (h1c : a1.conn = some c1)
    (h2 : AllocProxy fuel net Options (k + 1) = some a2) (h2ok : a2.err = none)
    (h2c : a2.conn = some c2)
    (hconn : conn.pending < fuel) (hchannel : channel.pending < fuel)
    (hc2 : c2.pending < fuel) :
    (∃ r s e, forward cc8 fuel net Options k client opts host port conn = some r ∧
      r.ssh = some s ∧
      s.tty.sent = ssh.tty.sent ++
        specCommand Options.Wait a1.host a1.port
          (specForwardMiddle Options.Wait host port) a2.host a2.port ∧
      r.c1 = some e ∧
      e.sent = c1.sent ++ (XORKeyStream (newRC4 cc8 a1.port) conn.incoming.flatten).2 ∧
      r.conn.sent = conn.sent ++ (XORKeyStream (newRC4 cc8 a2.port) c2.incoming.flatten).2) ∧
    (∃ r e, execCmd cc8 fuel net Options k Unmarshal ss req channel = some r ∧
      r.ss.tty.sent = ss.tty.sent ++
        specCommand Options.Wait a1.host a1.port CMD a2.host a2.port ∧
      r.c1 = some e ∧
      e.sent = c1.sent ++ (XORKeyStream (newRC4 cc8 a1.port) channel.incoming.flatten).2 ∧
      r.channel.sent =
        channel.sent ++ (XORKeyStream (newRC4 cc8 a2.port) c2.incoming.flatten).2) :=
  ⟨⟨_, _, _, forward_run cc8 fuel net Options k client opts host port conn ssh a1 a2 c1 c2
      hsession h1 h1ok h1c h2 h2ok h2c hconn hc2, rfl, rfl, rfl, rfl, rfl⟩,
   ⟨_, _, execCmd_run cc8 fuel net Options k Unmarshal ss req channel CMD a1 a2 c1 c2
      hcmd h1 h1ok h1c h2 h2ok h2c hchannel hc2, rfl, rfl, rfl, rfl⟩⟩

/-- C9 at a concrete input: W = 3, rendezvous (relay, 40000) and (relay, 40001), server
10.0.0.5 port 5432, and the exec command "rsync --server". -/
theorem target_command_template_witness :
    (∃ r s e, forward sampleChaCha8 10 sampleNet sampleOptions 0 sampleClient sampleForward
        (str "10.0.0.5") (str "5432") sampleLocal = some r ∧
      r.ssh = some s ∧
      s.tty.sent = str ("nc -4 -w 3 --recv-only relay 40000 | nc -4 -w 3 10.0.0.5 5432 | " ++
        "nc -4 -w 3 --send-only relay 40001\r") ∧
      r.c1 = some e ∧
      e.sent = emptyConn.sent ++
        (XORKeyStream (newRC4 sampleChaCha8 (str "40000")) sampleLocal.incoming.flatten).2 ∧
      r.conn.sent = sampleLocal.sent ++
        (XORKeyStream (newRC4 sampleChaCha8 (str "40001")) emptyConn.incoming.flatten).2) ∧
    (∃ r e, execCmd sampleChaCha8 10 sampleNet sampleOptions 0 Except.ok
        { tty := emptyConn } sampleRequest sampleLocal = some r ∧
      r.ss.tty.sent = str ("nc -4 -w 3 --recv-only relay 40000 | rsync --server | " ++
        "nc -4 -w 3 --send-only relay 40001\r") ∧
      r.c1 = some e ∧
      e.sent = emptyConn.sent ++
        (XORKeyStream (newRC4 sampleChaCha8 (str "40000")) sampleLocal.incoming.flatten).2 ∧
      r.channel.sent = sampleLocal.sent ++
        (XORKeyStream (newRC4 sampleChaCha8 (str "40001")) emptyConn.incoming.flatten).2) :=
  target_command_template sampleChaCha8 10 sampleNet sampleOptions 0 sampleClient
    sampleForward (str "10.0.0.5") (str "5432") sampleLocal { tty := emptyConn }
    Except.ok { tty := emptyConn } sampleRequest sampleLocal (str "rsync --server")
    { conn := some emptyConn, host := str "relay", port := str "40000", err := none }
    { conn := some emptyConn, host := str "relay", port := str "40001", err := none }
    emptyConn emptyConn rfl rfl (by decide) rfl rfl (by decide) rfl rfl
    (by decide) (by decide) (by decide)

/-! ## Direction resolution (`rsync.go`) -/

/-- C10 (rsync direction resolution). For options `opts` as the command line gives them
(`upload` unset) and every `Stat`: (1) if Remote contains `:` the direction is download,
Remote and Target are unchanged and `Rsync` goes on; (2) else if Target contains `:` the
direction is upload with Remote and Target swapped, and `Rsync` goes on exactly when the
local path exists; (3) else if Remote names an existing path the direction is upload with
the two swapped (and `Rsync` goes on exactly when the new Remote is not empty, printing
"no remote specified" otherwise); (4) else it fails with "no file specified". Whenever the
direction is upload and `Rsync` goes on, the local path (Target after the swap) exists. -/
theorem rsync_direction (Stat : GoString → Option Error) (opts : RsyncOptions)
    (hunset : opts.upload = false) :
    (stringsContains opts.Remote 58 = true →
      Rsync Stat opts = { opts := opts, stderr := [], proceeds := true } ∧
      (Rsync Stat opts).opts.upload = false) ∧
    (stringsContains opts.Remote 58 = false → stringsContains opts.Target 58 = true →
      (Rsync Stat opts).opts.upload = true ∧
      (Rsync Stat opts).opts.Remote = opts.Target ∧
      (Rsync Stat opts).opts.Target = opts.Remote ∧
      ((Rsync Stat opts).proceeds = true ↔ Stat opts.Remote = none)) ∧
    (stringsContains opts.Remote 58 = false → stringsContains opts.Target 58 = false →
      Stat opts.Remote = none →
      (Rsync Stat opts).opts.upload = true ∧
      (Rsync Stat opts).opts.Remote = opts.Target ∧
      (Rsync Stat opts).opts.Target = opts.Remote ∧
      ((Rsync Stat opts).proceeds = true ↔ opts.Target ≠ []) ∧
      (opts.Target = [] → (Rsync Stat opts).stderr = Sprintln (str "no remote specified"))) ∧
    (stringsContains opts.Remote 58 = false → stringsContains opts.Target 58 = false →
      Stat opts.Remote ≠ none →
      Rsync Stat opts =
        { opts := opts, stderr := Sprintln (str "no file specified"), proceeds := false }) ∧
    ((Rsync Stat opts).opts.upload = true → (Rsync Stat opts).proceeds = true →
      Stat (Rsync Stat opts).opts.Target = none) := by
  have hnil : stringsContains ([] : GoString) 58 = false := rfl
  refine ⟨?_, ?_, ?_, ?_, ?_⟩
  · intro h1
    simp [Rsync, h1, hunset]
  · intro h1 h2
    cases hs : Stat opts.Remote <;> simp [Rsync, h1, h2, hs]
  · intro h1 h2 h3
    by_cases ht : opts.Target = [] <;> simp [Rsync, h1, h2, h3, ht, hnil]
  · intro h1 h2 h3
    simp [Rsync, h1, h2, h3]
  · by_cases h1 : stringsContains opts.Remote 58 = true
    · simp [Rsync, h1, hunset]
    · by_cases h2 : stringsContains opts.Target 58 = true
      · cases hs : Stat opts.Remote <;> simp [Rsync, h1, h2, hs]
      · by_cases h3 : Stat opts.Remote = none
        · by_cases ht : opts.Target = [] <;> simp [Rsync, h1, h2, h3, ht, hnil]
        · simp [Rsync, h1, h2, h3, hunset]

/-- C10 at a concrete input: Remote "a.txt" (an existing path), Target "web1:/srv". -/
theorem rsync_direction_witness :
    (Rsync sampleStat sampleRsync).opts.upload = true ∧
      (Rsync sampleStat sampleRsync).opts.Remote = str "web1:/srv" ∧
      (Rsync sampleStat sampleRsync).opts.Target = str "a.txt" ∧
      ((Rsync sampleStat sampleRsync).proceeds = true ↔ sampleStat sampleRsync.Remote = none) :=
  (rsync_direction sampleStat sampleRsync rfl).2.1 (by decide) (by decide)

/-! ## Indices and `net.SplitHostPort` -/

theorem stringsIndexByte_ge (s : GoString) (c : Byte) : -1 ≤ stringsIndexByte s c := by
  induction s with
  | nil => simp [stringsIndexByte]
  | cons b rest ih =>
    unfold stringsIndexByte
    split_ifs <;> omega

theorem stringsIndexByte_neg_iff (s : GoString) (c : Byte) :
    stringsIndexByte s c < 0 ↔ c ∉ s := by
  induction s with
  | nil => simp [stringsIndexByte]
  | cons b rest ih =>
    have hge := stringsIndexByte_ge rest c
    unfold stringsIndexByte
    by_cases hb : b = c
    · simp [hb]
    · have hb1 : ¬ c = b := fun h => hb h.symm
      simp only [hb, if_false, List.mem_cons, hb1, false_or]
      rw [← ih]
      split_ifs with h
      · simp [h]
      · constructor
        · intro h1
          omega
        · intro h1
          exact absurd h1 h

/-- The first `c` of a string splits it: the index is the length of what precedes. -/
theorem stringsIndexByte_split (h p : GoString) (c : Byte) (hc : c ∉ h) :
    stringsIndexByte (h ++ c :: p) c = h.length := by
  induction h with
  | nil => simp [stringsIndexByte]
  | cons b h ih =>
    have hb : ¬ b = c := fun e => hc (by simp [e])
    have hh : c ∉ h := fun e => hc (by simp [e])
    rw [List.cons_append, stringsIndexByte]
    simp only [hb, if_false, ih hh]
    have : ¬ ((h.length : Int) < 0) := by omega
    simp only [this, if_false, List.length_cons]
    omega

theorem stringsLastIndexByte_ge (s : GoString) (c : Byte) : -1 ≤ stringsLastIndexByte s c := by
  induction s with
  | nil => simp [stringsLastIndexByte]
  | cons b rest ih =>
    unfold stringsLastIndexByte
    split_ifs <;> omega

theorem stringsLastIndexByte_neg (s : GoString) (c : Byte)
    (h : stringsLastIndexByte s c < 0) : c ∉ s := by
  induction s with
  | nil => simp
  | cons b rest ih =>
    have hge := stringsLastIndexByte_ge rest c
    unfold stringsLastIndexByte at h
    by_cases hr : 0 ≤ stringsLastIndexByte rest c
    · simp only [hr, if_true] at h
      omega
    · simp only [hr, if_false] at h
      by_cases hb : b = c
      · simp [hb] at h
      · have hb1 : ¬ c = b := fun e => hb e.symm
        simp only [List.mem_cons, hb1, false_or]
        exact ih (by omega)

theorem stringsLastIndexByte_of_not_mem (s : GoString) (c : Byte) (h : c ∉ s) :
    stringsLastIndexByte s c = -1 := by
  induction s with
  | nil => simp [stringsLastIndexByte]
  | cons b rest ih =>
    have hb : ¬ b = c := fun e => h (by simp [e])
    have hr : c ∉ rest := fun e => h (by simp [e])
    unfold stringsLastIndexByte
    simp [ih hr, hb]

/-- Nothing after the last `c` of a string is a `c`. -/
theorem stringsLastIndexByte_drop (s : GoString) (c : Byte) :
    c ∉ s.drop (stringsLastIndexByte s c + 1).toNat := by
  induction s with
  | nil => simp
  | cons b rest ih =>
    have hge := stringsLastIndexByte_ge rest c
    unfold stringsLastIndexByte
    by_cases hr : 0 ≤ stringsLastIndexByte rest c
    · simp only [hr, if_true]
      have e : (stringsLastIndexByte rest c + 1 + 1).toNat =
          (stringsLastIndexByte rest c + 1).toNat + 1 := by omega
      rw [e, List.drop_succ_cons]
      exact ih
    · have hrest : c ∉ rest := stringsLastIndexByte_neg rest c (by omega)
      simp only [hr, if_false]
      by_cases hb : b = c
      · simp only [hb, if_true]
        simpa using hrest
      · have hb1 : ¬ c = b := fun e => hb e.symm
        simp only [hb, if_false]
        simp [hb1, hrest]

/-- The last `c` of a string splits it: the index is the length of what precedes. -/
theorem stringsLastIndexByte_split (h p : GoString) (c : Byte) (hc : c ∉ p) :
    stringsLastIndexByte (h ++ c :: p) c = h.length := by
  induction h with
  | nil =>
    simp only [List.nil_append, List.length_nil]
    unfold stringsLastIndexByte
    simp [stringsLastIndexByte_of_not_mem p c hc]
  | cons b h ih =>
    rw [List.cons_append, stringsLastIndexByte]
    have : (0 : Int) ≤ (h.length : Int) := by omega
    simp only [ih, this, if_true, List.length_cons]
    omega

theorem SplitHostPort_finish_port (hostport host : GoString) (i j k : Int)
    (hi : i = stringsLastIndexByte hostport 58) :
    58 ∉ (SplitHostPort.finish hostport host i j k).2.1 := by
  unfold SplitHostPort.finish
  split_ifs
  · simp
  · simp
  · simpa [hi] using stringsLastIndexByte_drop hostport 58

/-- The port that `net.SplitHostPort` returns never holds a `:`. -/
theorem SplitHostPort_port (hostport : GoString) : 58 ∉ (SplitHostPort hostport).2.1 := by
  unfold SplitHostPort
  simp only
  split_ifs
  all_goals first
    | exact SplitHostPort_finish_port _ _ _ _ _ rfl
    | simp

/-- An address `host:port` whose host and port hold none of `:`, `[`, `]` splits into
that host and that port. -/
theorem SplitHostPort_host_port (host port : GoString)
    (hhost : ∀ b ∈ host, b ≠ 58 ∧ b ≠ 91 ∧ b ≠ 93)
    (hport : ∀ b ∈ port, b ≠ 58 ∧ b ≠ 91 ∧ b ≠ 93) :
    SplitHostPort (host ++ 58 :: port) = (host, port, none) := by
  have h58p : (58 : Byte) ∉ port := fun h => (hport 58 h).1 rfl
  have h58h : (58 : Byte) ∉ host := fun h => (hhost 58 h).1 rfl
  have hlast := stringsLastIndexByte_split host port 58 h58p
  have hhead : (host ++ 58 :: port).head? ≠ some 91 := by
    cases host with
    | nil => simp
    | cons b host =>
      simp only [List.cons_append, List.head?_cons, ne_eq, Option.some.injEq]
      exact (hhost b (by simp)).2.1
  have hall : ∀ c : Byte, c = 91 ∨ c = 93 → c ∉ host ++ 58 :: port := by
    intro c hc hmem
    rcases List.mem_append.mp hmem with h | h
    · rcases hc with rfl | rfl
      · exact (hhost _ h).2.1 rfl
      · exact (hhost _ h).2.2 rfl
    · rcases List.mem_cons.mp h with h1 | h1
      · rcases hc with rfl | rfl <;> simp at h1
      · rcases hc with rfl | rfl
        · exact (hport _ h1).2.1 rfl
        · exact (hport _ h1).2.2 rfl
  have h91 : ¬ 0 ≤ stringsIndexByte (host ++ 58 :: port) 91 := by
    have := (stringsIndexByte_neg_iff (host ++ 58 :: port) 91).mpr (hall 91 (Or.inl rfl))
    omega
  have h93 : ¬ 0 ≤ stringsIndexByte (host ++ 58 :: port) 93 := by
    have := (stringsIndexByte_neg_iff (host ++ 58 :: port) 93).mpr (hall 93 (Or.inr rfl))
    omega
  have hcol : ¬ 0 ≤ stringsIndexByte host 58 := by
    have := (stringsIndexByte_neg_iff host 58).mpr h58h
    omega
  have hnneg : ¬ ((host.length : Int) < 0) := by omega
  unfold SplitHostPort
  simp only [hlast, hnneg, if_false, hhead, slice, Int.toNat_ofNat, Int.toNat_zero,
    List.drop_zero, List.take_left, hcol, SplitHostPort.finish, h91, h93]
  have e : ((host.length : Int) + 1).toNat = host.length + 1 := by omega
  rw [e]
  simp

/-! ## The rsync command line (`rsync.go`) -/

theorem Sprintf_ssh_port (port : GoString) :
    Sprintf (str "ssh -p %v") [Arg.string port] = some (str "ssh -p " ++ port) := by
  have h : Sprintf (str "ssh -p %v") [Arg.string port] = some (str "ssh -p " ++ (port ++ [])) :=
    rfl
  rw [h, List.append_nil]

/-- What `StartRsync` and `handleChannel` take from a `Remote` that holds a `:`. -/
theorem remote_split (opts : RsyncOptions) (h p : GoString)
    (hremote : opts.Remote = h ++ 58 :: p) (hh : 58 ∉ h) :
    StartRsync.file opts = p ∧ handleChannel.remote opts.Remote = h := by
  have hidx := stringsIndexByte_split h p 58 hh
  have hnn : (0 : Int) ≤ (h.length : Int) := by omega
  have e : ((h.length : Int) + 1).toNat = h.length + 1 := by omega
  constructor
  · simp only [StartRsync.file, hremote, hidx, hnn, if_true, e]
    simp
  · simp only [handleChannel.remote, hremote, hidx, hnn, if_true, slice, Int.toNat_ofNat,
      Int.toNat_zero, List.drop_zero, List.take_left]

/-- What `StartRsync` and `handleChannel` take from a `Remote` that holds no `:`. -/
theorem remote_bare (opts : RsyncOptions) (hremote : 58 ∉ opts.Remote) :
    StartRsync.file opts = [] ∧ handleChannel.remote opts.Remote = opts.Remote := by
  have hneg := (stringsIndexByte_neg_iff opts.Remote 58).mpr hremote
  have hn : ¬ 0 ≤ stringsIndexByte opts.Remote 58 := by omega
  simp [StartRsync.file, handleChannel.remote, hn]

/-- C11, the claim as stated fails: uploading "a.txt" to the bare host "web1" resolves to
Remote = "web1", and `Rsync` goes on; `StartRsync` then builds the remote operand
"127.0.0.1:" with an empty path, and `handleChannel` hops to "web1", so host, ":" and
path together give "web1:", which is not Remote. -/
theorem StartRsync_args_counterexample :
    (Rsync sampleStat bareHostRsync).proceeds = true ∧
      (Rsync sampleStat bareHostRsync).opts.Remote = str "web1" ∧
      (StartRsync (fun _ => none) (str "127.0.0.1:65222")
          (Rsync sampleStat bareHostRsync).opts).map (fun s => s.args) =
        some (some [str "-avzhP", str "-e", str "ssh -p 65222", str "a.txt",
          str "127.0.0.1:"]) ∧
      handleChannel.remote (Rsync sampleStat bareHostRsync).opts.Remote ++ [58] ++
          StartRsync.file (Rsync sampleStat bareHostRsync).opts ≠
        (Rsync sampleStat bareHostRsync).opts.Remote := by
  decide

/-- C11 as amended (rsync command-line form). For a listen address that splits into a
host and the port `port`, the arguments `StartRsync` passes to rsync are
"-avzhP", "-e", "ssh -p port", the local path, "127.0.0.1:" followed by the remote path
on upload, and "-avzhP", "-e", "ssh -p port", "127.0.0.1:" followed by the remote path,
the local path (or "." when Target is empty) on download. When Remote holds a `:` the
remote path is what follows its first `:` and the host `handleChannel` hops to is what
precedes it (host, ":" and remote path give back Remote); when Remote holds no `:` the
remote path is empty and the host is all of Remote. -/
theorem StartRsync_args (Start : List GoString → Option Error) (address host port : GoString)
    (opts : RsyncOptions) (hsplit : SplitHostPort address = (host, port, none)) :
    (opts.upload = true →
      StartRsync Start address opts =
        some { args := some [str "-avzhP", str "-e", str "ssh -p " ++ port, opts.Target,
                 str "127.0.0.1:" ++ StartRsync.file opts],
               err := Start [str "-avzhP", str "-e", str "ssh -p " ++ port, opts.Target,
                 str "127.0.0.1:" ++ StartRsync.file opts] }) ∧
    (opts.upload = false →
      StartRsync Start address opts =
        some { args := some [str "-avzhP", str "-e", str "ssh -p " ++ port,
                 str "127.0.0.1:" ++ StartRsync.file opts,
                 if opts.Target = [] then str "." else opts.Target],
               err := Start [str "-avzhP", str "-e", str "ssh -p " ++ port,
                 str "127.0.0.1:" ++ StartRsync.file opts,
                 if opts.Target = [] then str "." else opts.Target] }) ∧
    (∀ h p, opts.Remote = h ++ 58 :: p → 58 ∉ h →
      StartRsync.file opts = p ∧ handleChannel.remote opts.Remote = h ∧
      handleChannel.remote opts.Remote ++ [58] ++ StartRsync.file opts = opts.Remote) ∧
    (58 ∉ opts.Remote →
      StartRsync.file opts = [] ∧ handleChannel.remote opts.Remote = opts.Remote) := by
  refine ⟨?_, ?_, ?_, remote_bare opts⟩
  · intro hup
    unfold StartRsync
    simp [hsplit, Sprintf_ssh_port, hup]
  · intro hup
    unfold StartRsync
    by_cases ht : opts.Target = [] <;> simp [hsplit, Sprintf_ssh_port, hup, ht]
  · intro h p hremote hh
    have hs := remote_split opts h p hremote hh
    refine ⟨hs.1, hs.2, ?_⟩
    rw [hs.1, hs.2, hremote]
    simp

/-- C11 as amended, at a concrete input: the listen address "127.0.0.1:65222" and the
upload of "a.txt" to "web1:/srv". -/
theorem StartRsync_args_witness :
    StartRsync (fun _ => none) (str "127.0.0.1:65222") updateRsync =
      some { args := some [str "-avzhP", str "-e", str "ssh -p " ++ str "65222",
               updateRsync.Target, str "127.0.0.1:" ++ StartRsync.file updateRsync],
             err := none } :=
  (StartRsync_args (fun _ => none) (str "127.0.0.1:65222") (str "127.0.0.1") (str "65222")
    updateRsync (by decide)).1 rfl

/-- C12, evaluated on the code: `StartRsync` never reads `Update`, so the arguments are
the same with the option set and unset; for the upload of "a.txt" to "web1:/srv" with the
option set they are "-avzhP", "-e", "ssh -p 65222", "a.txt", "127.0.0.1:/srv", with no
update flag among them. -/
theorem StartRsync_Update_ignored :
    (∀ (Start : List GoString → Option Error) (address : GoString) (opts : RsyncOptions),
      StartRsync Start address { opts with Update := true } =
        StartRsync Start address { opts with Update := false }) ∧
    (StartRsync (fun _ => none) (str "127.0.0.1:65222") updateRsync).map (fun s => s.args) =
      some (some [str "-avzhP", str "-e", str "ssh -p 65222", str "a.txt",
        str "127.0.0.1:/srv"]) ∧
    updateRsync.Update = true := by
  refine ⟨fun Start address opts => rfl, by decide, rfl⟩

/-! ## The listen address of the forwarder (`forward.go`) -/

/-- C13 (forwarder listen address). Let `host` and `port` be what `net.SplitHostPort`
gives for Server. If both are non-empty and Remote is non-empty, `TCPForward` calls
`NewSSHClient` and, when that succeeds, passes to `net.Listen` the address
"127.0.0.1:" followed by `port` when Listen is empty, "127.0.0.1:" followed by Listen
when Listen is a bare port (holds no `:`), and Listen unchanged otherwise. If `host` or
`port` is empty, or Remote is empty, it returns without calling `NewSSHClient` or
`net.Listen`. A Server written `h:p`, with none of `:`, `[`, `]` in `h` and `p`, has
host `h` and port `p`. -/
theorem TCPForward_listen_address (NewSSHClient : Option Error)
    (Listen : GoString → Option Error) (opts : ForwardOptions) (host port : GoString)
    (err : Option Error) (hsplit : SplitHostPort opts.Server = (host, port, err)) :
    (host ≠ [] → port ≠ [] → opts.Remote ≠ [] →
      (TCPForward NewSSHClient Listen opts).connected = true ∧
      (NewSSHClient ≠ none → (TCPForward NewSSHClient Listen opts).listen = none) ∧
      (NewSSHClient = none →
        (opts.Listen = [] →
          (TCPForward NewSSHClient Listen opts).listen = some (str "127.0.0.1:" ++ port)) ∧
        (opts.Listen ≠ [] → 58 ∉ opts.Listen →
          (TCPForward NewSSHClient Listen opts).listen =
            some (str "127.0.0.1:" ++ opts.Listen)) ∧
        (58 ∈ opts.Listen →
          (TCPForward NewSSHClient Listen opts).listen = some opts.Listen))) ∧
    (host = [] ∨ port = [] ∨ opts.Remote = [] →
      (TCPForward NewSSHClient Listen opts).connected = false ∧
      (TCPForward NewSSHClient Listen opts).listen = none) ∧
    (∀ h p : GoString, (∀ b ∈ h, b ≠ 58 ∧ b ≠ 91 ∧ b ≠ 93) →
      (∀ b ∈ p, b ≠ 58 ∧ b ≠ 91 ∧ b ≠ 93) → opts.Server = h ++ 58 :: p →
      host = h ∧ port = p) := by
  have hport : 58 ∉ port := by
    have h := SplitHostPort_port opts.Server
    rw [hsplit] at h
    exact h
  refine ⟨?_, ?_, ?_⟩
  · intro hh hp hr
    have hhp : ¬ (host = [] ∨ port = []) := by
      intro h
      rcases h with h | h
      · exact hh h
      · exact hp h
    refine ⟨?_, ?_, ?_⟩
    · unfold TCPForward
      simp only [hsplit, hhp, hr, if_false]
      split_ifs <;> rfl
    · intro hc
      unfold TCPForward
      simp only [hsplit, hhp, hr, if_false, hc, ne_eq, not_false_eq_true, if_true]
    · intro hc
      subst hc
      refine ⟨?_, ?_, ?_⟩
      · intro hl
        unfold TCPForward
        simp only [hsplit, hhp, hr, if_false, hl, if_true, stringsContains, hport,
          decide_False, Bool.false_eq_true, not_false_eq_true, ne_eq, not_true_eq_false]
        split_ifs <;> rfl
      · intro hl hcol
        unfold TCPForward
        simp only [hsplit, hhp, hr, if_false, hl, stringsContains, hcol,
          decide_False, Bool.false_eq_true, not_false_eq_true, if_true, ne_eq,
          not_true_eq_false]
        split_ifs <;> rfl
      · intro hcol
        have hl : opts.Listen ≠ [] := by
          intro h0
          rw [h0] at hcol
          simp at hcol
        unfold TCPForward
        simp only [hsplit, hhp, hr, if_false, hl, stringsContains, hcol,
          decide_True, not_true_eq_false, ne_eq]
        split_ifs <;> rfl
  · intro h
    unfold TCPForward
    rcases h with h | h | h
    · simp [hsplit, h]
    · simp [hsplit, h]
    · by_cases hhp : host = [] ∨ port = []
      · simp [hsplit, hhp]
      · simp [hsplit, hhp, h]
  · intro h p hh hp hserver
    have hs := SplitHostPort_host_port h p hh hp
    rw [← hserver, hsplit] at hs
    simp only [Prod.mk.injEq] at hs
    exact ⟨hs.1, hs.2.1⟩

/-- C13 at a concrete input: Server "10.0.0.5:5432", Remote "db1", Listen empty; the
address passed to `net.Listen` is "127.0.0.1:5432". -/
theorem TCPForward_listen_address_witness :
    (TCPForward none (fun _ => none) sampleForward).listen =
      some (str "127.0.0.1:" ++ str "5432") :=
  ((TCPForward_listen_address none (fun _ => none) sampleForward (str "10.0.0.5") (str "5432")
    none (by decide)).1 (by decide) (by decide) (by decide)).2.2 rfl |>.1 rfl

end Snc
